import Mathlib

/-!
# Cross-correlation time aligner

A shallow embedding of `src/initial/CrossCorrTimeAligner.cpp` (class
`CrossCorrTimeAligner`) and the properties of it that the specification
states.

Conventions of the embedding.

* `Timestamp` (`int64_t` nanoseconds) is `Int`; `double` is `ℚ`, i.e. all
  floating point computations are read as exact arithmetic.
* Container sizes (`size_t`) are `Nat`.  The one mixed signed/unsigned
  expression, `offset` in `getTimeShift`, is computed in `Int`: the
  conversion back to `int64_t` restores the mathematical value for every
  container size below `2^63`.
* A call either returns normally (`Except.ok`) or stops (`Except.error`) at
  a failed `CHECK_*` or at an index outside a container.  The error carries
  the aligner as it is at that point, so that what has been pushed before
  the stop can be stated.
* Library code (Eigen, gtsam, `utils::`, `UtilsNumerical::`) is not part of
  the translation unit; it is collected in `Env` and every theorem
  holds for every `Env`.
-/

namespace CrossCorr

/-- `Timestamp`: signed 64 bit nanoseconds. -/
abbrev Timestamp := Int

/-- `CrossCorrTimeAligner::Measurement`. -/
structure Measurement where
  timestamp : Timestamp
  value : ℚ
deriving DecidableEq, Repr

/-- A 3-vector, one column block of `ImuAccGyrS`. -/
structure Vector3 where
  x : ℚ
  y : ℚ
  z : ℚ
deriving DecidableEq, Repr

/-- One column of `imu_stamps` together with the same column of
`imu_acc_gyrs`: rows 0-2 are the accelerometer, rows 3-5 the gyroscope. -/
structure ImuColumn where
  stamp : Timestamp
  acc : Vector3
  gyr : Vector3
deriving DecidableEq, Repr

/-- The part of `gtsam::Pose3` the aligner reads:
`Rot3::Logmap(T.rotation()).norm()`. -/
structure Pose3 where
  rotationLogNorm : ℚ
deriving DecidableEq, Repr

/-- The fields of `ImuParams` read by the constructor. -/
structure ImuParams where
  do_imu_rate_time_alignment_ : Bool
  nominal_sampling_time_s_ : ℚ
  gyro_noise_density_ : ℚ
  time_alignment_window_size_ : Nat
deriving DecidableEq, Repr

/-- `TimeAlignerBase::Result`. -/
structure Result where
  valid : Bool
  imu_time_shift : ℚ
deriving DecidableEq, Repr

/-- Library functions called by the aligner whose code is not in the
translation unit. -/
structure Env where
  /-- `Eigen::Vector3d::norm()`. -/
  norm : Vector3 → ℚ
  /-- `Rot3::Logmap(rot_pim.deltaRij()).norm()` after
  `integrateMeasurement(gyr, 0, dt)` for every gyroscope column. -/
  integratedAngle : List Vector3 → ℚ → ℚ
  /-- `utils::variance` over the values of a buffer. -/
  variance : List ℚ → ℚ
  /-- `utils::crossCorrelation` over the values of two buffers. -/
  crossCorrelation : List ℚ → List ℚ → List ℚ
  /-- `UtilsNumerical::NsecToSec`. -/
  NsecToSec : Timestamp → ℚ
  /-- `UtilsNumerical::SecToNsec`. -/
  SecToNsec : ℚ → Timestamp

/-- Modelled from the spec: the class `RingBuffer` is not among the sources.
A fixed-capacity buffer holding the current window oldest first; `push`
evicts the oldest element once the buffer is full.  `pushes` is a
specification-only counter of the `push` calls made so far, so that the
number of samples pushed survives evictions. -/
structure RingBuffer where
  capacity : Nat
  items : List Measurement
  pushes : Nat
deriving DecidableEq, Repr

namespace RingBuffer

/-- Modelled from the spec: the `RingBuffer` constructor, an empty buffer of
the given capacity. -/
def new (capacity : Nat) : RingBuffer := ⟨capacity, [], 0⟩

/-- Modelled from the spec: `RingBuffer::size()`. -/
def size (b : RingBuffer) : Nat := b.items.length

/-- Modelled from the spec: `RingBuffer::empty()`. -/
def empty (b : RingBuffer) : Bool := b.items.isEmpty

/-- Modelled from the spec: `RingBuffer::full()`, size == capacity. -/
def full (b : RingBuffer) : Bool := decide (b.size = b.capacity)

/-- Modelled from the spec: `RingBuffer::push`, append, evicting the oldest
element on overflow. -/
def push (b : RingBuffer) (m : Measurement) : RingBuffer :=
  { capacity := b.capacity
    items := if b.items.length < b.capacity then b.items ++ [m]
             else (b.items ++ [m]).drop 1
    pushes := b.pushes + 1 }

/-- Modelled from the spec: `RingBuffer::front()`; `none` on an empty buffer. -/
def front? (b : RingBuffer) : Option Measurement := b.items.head?

/-- Modelled from the spec: `RingBuffer::back()`; `none` on an empty buffer. -/
def back? (b : RingBuffer) : Option Measurement := b.items.getLast?

/-- Modelled from the spec: `RingBuffer::operator[]`, index access into the
current window, oldest first; `none` outside it. -/
def get? (b : RingBuffer) (i : Nat) : Option Measurement := b.items[i]?

/-- The values of the window, oldest first (`valueAccessor` mapped over it). -/
def values (b : RingBuffer) : List ℚ := b.items.map (fun m => m.value)

/-- A run of `push` calls, in list order. -/
def pushAll (b : RingBuffer) (ms : List Measurement) : RingBuffer :=
  ms.foldl push b

end RingBuffer

/-- The data members of `CrossCorrTimeAligner`. -/
structure Aligner where
  do_imu_rate_estimation_ : Bool
  imu_period_s_ : ℚ
  imu_variance_threshold_ : ℚ
  imu_buffer_ : RingBuffer
  vision_buffer_ : RingBuffer
deriving DecidableEq, Repr

/-- How a call stops without returning. -/
inductive Failure where
  /-- `CHECK_LE(N, imu_buffer_.size())`. -/
  | checkLE
  /-- `CHECK_GT(imu_diff, 0.0)`. -/
  | checkGT
  /-- `CHECK_GE(ratio, 0.0)`. -/
  | checkGE
  /-- An index outside the container it is applied to. -/
  | outOfRange
deriving DecidableEq, Repr

deriving instance DecidableEq for Except

/-- `CrossCorrTimeAligner::CrossCorrTimeAligner(const ImuParams&)`. -/
def Aligner.new (params : ImuParams) : Aligner :=
  { do_imu_rate_estimation_ := params.do_imu_rate_time_alignment_
    imu_period_s_ := params.nominal_sampling_time_s_
    imu_variance_threshold_ := 3 * params.gyro_noise_density_ ^ 2
    imu_buffer_ := RingBuffer.new params.time_alignment_window_size_
    vision_buffer_ := RingBuffer.new params.time_alignment_window_size_ }

/-- `CrossCorrTimeAligner::addNewImuData`: the number of measurements added
and the aligner afterwards.  `imu` holds the columns of `imu_stamps` and
`imu_acc_gyrs`; the test `imu_buffer_.size() > 0` is the case
`back? = some _`. -/
def addNewImuData (env : Env) (a : Aligner) (frame_timestamp : Timestamp)
    (imu : List ImuColumn) : Nat × Aligner :=
  match imu with
  | [] => (0, a)
  | c0 :: _ =>
    if ¬ a.do_imu_rate_estimation_ then
      let value := env.integratedAngle (imu.map (fun c => c.gyr)) a.imu_period_s_
      (1, { a with imu_buffer_ := a.imu_buffer_.push (Measurement.mk frame_timestamp value) })
    else
      let start : Nat :=
        match a.imu_buffer_.back? with
        | none => 0
        | some last => if last.timestamp ≥ c0.stamp then 1 else 0
      let buffer := (imu.drop start).foldl
        (fun b c => b.push (Measurement.mk c.stamp (env.norm c.gyr * a.imu_period_s_)))
        a.imu_buffer_
      (imu.length - start, { a with imu_buffer_ := buffer })

/-- The loop of `interpNewImageMeasurements` (lines 110-121), over the
values of `i` still to run. -/
def interpLoop (env : Env) (t_ref : Timestamp) (N : Nat)
    (last_frame_angle frame_diff frame_value_diff : ℚ)
    (first_imu : Timestamp) (imu_diff : ℚ) :
    List Nat → Aligner → Except (Failure × Aligner) Aligner
  | [], a => .ok a
  | i :: rest, a =>
    match a.imu_buffer_.get? (a.imu_buffer_.size - N + i) with
    | none => .error (.outOfRange, a)
    | some m =>
      let curr_diff := env.NsecToSec (m.timestamp - first_imu)
      let ratio := curr_diff / imu_diff
      if ¬ ratio ≥ 0 then .error (.checkGE, a)
      else
        let new_timestamp := t_ref + env.SecToNsec (ratio * frame_diff)
        let pushed := a.vision_buffer_.push
          (Measurement.mk new_timestamp (last_frame_angle + frame_value_diff * ratio))
        interpLoop env t_ref N last_frame_angle frame_diff frame_value_diff
          first_imu imu_diff rest { a with vision_buffer_ := pushed }

/-- `CrossCorrTimeAligner::interpNewImageMeasurements`.  The test
`vision_buffer_.empty()` is the case `back? = none`. -/
def interpNewImageMeasurements (env : Env) (a : Aligner)
    (timestamps_ref_cur : Timestamp × Timestamp) (T_ref_cur : Pose3)
    (num_new_imu_measurements : Nat) : Except (Failure × Aligner) Aligner :=
  let N := num_new_imu_measurements
  if ¬ N ≤ a.imu_buffer_.size then .error (.checkLE, a)
  else
    let angle := T_ref_cur.rotationLogNorm
    if N = 1 then
      match a.imu_buffer_.back? with
      | none => .error (.outOfRange, a)
      | some last =>
        let pushed := a.vision_buffer_.push (Measurement.mk last.timestamp angle)
        .ok { a with vision_buffer_ := pushed }
    else
      let last_frame_angle : ℚ :=
        match a.vision_buffer_.back? with
        | none => 0
        | some m => m.value
      let frame_diff :=
        env.NsecToSec (timestamps_ref_cur.2 - timestamps_ref_cur.1)
      let frame_value_diff := angle - last_frame_angle
      let first? :=
        if a.imu_buffer_.size = N then a.imu_buffer_.get? 0
        else a.imu_buffer_.get? (a.imu_buffer_.size - N - 1)
      match first?, a.imu_buffer_.back? with
      | some first, some last =>
        let first_imu := first.timestamp
        let imu_diff := env.NsecToSec (last.timestamp - first_imu)
        if ¬ imu_diff > 0 then .error (.checkGT, a)
        else
          interpLoop env timestamps_ref_cur.1 N last_frame_angle frame_diff
            frame_value_diff first_imu imu_diff (List.range N) a
      | _, _ => .error (.outOfRange, a)

/-- One pass of the loop body of `getTimeShift` (lines 135-143) on the
current `(max_idx, max_corr)`. -/
def searchStep (correlation : List ℚ) (N : Nat) (best : Nat × ℚ) (i : Nat) :
    Except Failure (Nat × ℚ) :=
  match correlation[N - i]? with
  | none => .error .outOfRange
  | some lo =>
    let best1 : Nat × ℚ := if lo > best.2 then (N - i, lo) else best
    match correlation[N + i]? with
    | none => .error .outOfRange
    | some hi => .ok (if hi > best1.2 then (N + i, hi) else best1)

/-- The loop of `getTimeShift` (lines 134-144), over the values of `i`
still to run. -/
def searchLoop (correlation : List ℚ) (N : Nat) :
    List Nat → Nat × ℚ → Except Failure (Nat × ℚ)
  | [], best => .ok best
  | i :: rest, best =>
    match searchStep correlation N best i with
    | .error f => .error f
    | .ok best1 => searchLoop correlation N rest best1

/-- Lines 131-144 of `getTimeShift`: the index `max_idx` selected in the
correlation array, for `N = vision_buffer_.size()`. -/
def maxCorrelationIndex (correlation : List ℚ) (N : Nat) : Except Failure Nat :=
  match correlation[N]? with
  | none => .error .outOfRange
  | some c =>
    match searchLoop correlation N (List.range' 1 (N - 1)) (N, c) with
    | .error f => .error f
    | .ok best => .ok best.1

/-- Lines 146-158 of `getTimeShift`: the time shift for a selected index
`max_idx`, `correlation_size` being `correlation.size()`. -/
def timeShiftOfIndex (env : Env) (vision_buffer imu_buffer : RingBuffer)
    (correlation_size max_idx : Nat) : Except Failure ℚ :=
  let offset : Int :=
    (vision_buffer.size : Int) - (correlation_size : Int) + (max_idx : Int)
  match imu_buffer.get? offset.natAbs, vision_buffer.front? with
  | some m, some v0 =>
    if max_idx ≥ vision_buffer.size then
      .ok (env.NsecToSec (m.timestamp - v0.timestamp))
    else
      .ok (env.NsecToSec (v0.timestamp - m.timestamp))
  | _, _ => .error .outOfRange

/-- `CrossCorrTimeAligner::getTimeShift`. -/
def getTimeShift (env : Env) (a : Aligner) : Except Failure ℚ :=
  let correlation :=
    env.crossCorrelation a.vision_buffer_.values a.imu_buffer_.values
  match maxCorrelationIndex correlation a.vision_buffer_.size with
  | .error f => .error f
  | .ok max_idx =>
    timeShiftOfIndex env a.vision_buffer_ a.imu_buffer_ correlation.length max_idx

/-- Lines 173-178 of `attemptEstimation`: the vision pushes of the call, by
interpolation in high-rate mode and one sample at the frame end otherwise. -/
def pushImageMeasurements (env : Env) (a : Aligner)
    (timestamps_ref_cur : Timestamp × Timestamp) (T_ref_cur : Pose3)
    (num_imu_added : Nat) : Except (Failure × Aligner) Aligner :=
  if a.do_imu_rate_estimation_ then
    interpNewImageMeasurements env a timestamps_ref_cur T_ref_cur num_imu_added
  else
    let m := Measurement.mk timestamps_ref_cur.2 T_ref_cur.rotationLogNorm
    .ok { a with vision_buffer_ := a.vision_buffer_.push m }

/-- `CrossCorrTimeAligner::attemptEstimation`. -/
def attemptEstimation (env : Env) (a : Aligner)
    (timestamps_ref_cur : Timestamp × Timestamp) (T_ref_cur : Pose3)
    (imu : List ImuColumn) : Except (Failure × Aligner) (Result × Aligner) :=
  let added := addNewImuData env a timestamps_ref_cur.2 imu
  let num_imu_added := added.1
  let a1 := added.2
  if num_imu_added = 0 then .ok (⟨true, 0⟩, a1)
  else
    match pushImageMeasurements env a1 timestamps_ref_cur T_ref_cur num_imu_added with
    | .error e => .error e
    | .ok a2 =>
      if ¬ a2.vision_buffer_.full then .ok (⟨false, 0⟩, a2)
      else
        let imu_variance := env.variance a2.imu_buffer_.values
        if imu_variance < a2.imu_variance_threshold_ then .ok (⟨false, 0⟩, a2)
        else
          match getTimeShift env a2 with
          | .error f => .error (f, a2)
          | .ok timeshift => .ok (⟨true, timeshift⟩, a2)

/-! ## A rational instance of the library

The theorems hold for every `Env`.  To evaluate the embedding on concrete
inputs one instance is fixed here. -/

/-- Modelled from the spec: `utils::variance` is not among the sources.  The
variance of the values about their mean (mean squared deviation). -/
def variance (xs : List ℚ) : ℚ :=
  let mean := xs.sum / xs.length
  (xs.map (fun x => (x - mean) ^ 2)).sum / xs.length

/-- Modelled from the spec: `utils::crossCorrelation` is not among the
sources.  For two series of `M` values, the `2M - 1` scores over the lags
`-(M-1) .. M-1`; index `M - 1` is zero lag, and the score at index `j` sums
`a[n] * b[n + j - (M-1)]` over the overlap. -/
def crossCorrelation (a b : List ℚ) : List ℚ :=
  (List.range (a.length + b.length - 1)).map fun j =>
    ((List.range a.length).map fun n =>
      if b.length ≤ n + j + 1 ∧ n + j + 1 - b.length < b.length then
        a.getD n 0 * b.getD (n + j + 1 - b.length) 0
      else 0).sum

/-- Modelled from the spec: `UtilsNumerical::NsecToSec` is not among the
sources; nanoseconds to seconds. -/
def NsecToSec (t : Timestamp) : ℚ := (t : ℚ) / 1000000000

/-- Modelled from the spec: `UtilsNumerical::SecToNsec` is not among the
sources; seconds to whole nanoseconds, rounding toward zero as a
conversion from `double` to `int64_t` does. -/
def SecToNsec (s : ℚ) : Timestamp :=
  if 0 ≤ s then ⌊s * 1000000000⌋ else ⌈s * 1000000000⌉

/-- A rational stand-in for `Eigen::Vector3d::norm()`: the Euclidean norm of
a vector with at most one non-zero component. -/
def axisNorm (v : Vector3) : ℚ := |v.x| + |v.y| + |v.z|

/-- A rational stand-in for the gyroscope preintegration of the low-rate
mode: the angle of the summed increments `gyr * dt`, which is the integrated
rotation angle when all the increments turn about one axis. -/
def axisIntegratedAngle (gyrs : List Vector3) (dt : ℚ) : ℚ :=
  axisNorm ⟨(gyrs.map (fun g => g.x * dt)).sum, (gyrs.map (fun g => g.y * dt)).sum,
    (gyrs.map (fun g => g.z * dt)).sum⟩

/-- The library instance used on concrete inputs. -/
def rationalEnv : Env :=
  { norm := axisNorm
    integratedAngle := axisIntegratedAngle
    variance := variance
    crossCorrelation := crossCorrelation
    NsecToSec := NsecToSec
    SecToNsec := SecToNsec }

/-- Low-rate parameters: period 5 ms, noise density 1, window of one sample. -/
def lowRateParams : ImuParams :=
  { do_imu_rate_time_alignment_ := false
    nominal_sampling_time_s_ := 1 / 200
    gyro_noise_density_ := 1
    time_alignment_window_size_ := 1 }

/-- A batch of two inertial columns turning about the z axis. -/
def twoColumns : List ImuColumn :=
  [⟨0, ⟨0, 0, 0⟩, ⟨0, 0, 2⟩⟩, ⟨5000000, ⟨0, 0, 0⟩, ⟨0, 0, 4⟩⟩]

/-- High-rate parameters: period 5 ms, noise density 1, window of five
samples. -/
def highRateParams : ImuParams :=
  { do_imu_rate_time_alignment_ := true
    nominal_sampling_time_s_ := 1 / 200
    gyro_noise_density_ := 1
    time_alignment_window_size_ := 5 }

/-- A high-rate aligner whose inertial buffer already holds the boundary
sample at time 0. -/
def seededAligner : Aligner :=
  { do_imu_rate_estimation_ := true
    imu_period_s_ := 1 / 200
    imu_variance_threshold_ := 3
    imu_buffer_ := ⟨5, [⟨0, 1 / 100⟩], 1⟩
    vision_buffer_ := ⟨5, [⟨0, 0⟩], 1⟩ }

/-- Low-rate parameters allowed by the data model with noise density 0, so
that the variance threshold is 0; window of one sample. -/
def zeroNoiseParams : ImuParams :=
  { do_imu_rate_time_alignment_ := false
    nominal_sampling_time_s_ := 1 / 200
    gyro_noise_density_ := 0
    time_alignment_window_size_ := 1 }

/-- The library instance with a correlation routine that returns two scores
for a window of one sample, so that every index `getTimeShift` reads exists. -/
def twoScoreEnv : Env :=
  { rationalEnv with crossCorrelation := fun _ _ => [0, 0] }

/-- A high-rate aligner (noise density 1) with a window of one sample whose
buffers are full; the inertial buffer ends at time 0. -/
def fullAligner : Aligner :=
  { do_imu_rate_estimation_ := true
    imu_period_s_ := 1 / 200
    imu_variance_threshold_ := 3
    imu_buffer_ := ⟨1, [⟨0, 1 / 100⟩], 1⟩
    vision_buffer_ := ⟨1, [⟨0, 0⟩], 1⟩ }

/-- The fresh low-rate aligner of `lowRateParams` after one call at frame
end 10 ms with `twoColumns` and a relative rotation of angle 1/10. -/
def lowRateAfterOneCall : Aligner :=
  { do_imu_rate_estimation_ := false
    imu_period_s_ := 1 / 200
    imu_variance_threshold_ := 3
    imu_buffer_ := ⟨1, [⟨10000000, 3 / 100⟩], 1⟩
    vision_buffer_ := ⟨1, [⟨10000000, 1 / 10⟩], 1⟩ }

/-- The same call on the fresh aligner of `zeroNoiseParams`. -/
def zeroNoiseAfterOneCall : Aligner :=
  { lowRateAfterOneCall with imu_variance_threshold_ := 0 }

/-- One step of the lag selection as the specification words it: examine
`center - i`, then `center + i`, each replacing the current best only if its
score is strictly greater. -/
def specSearchStep (scores : List ℚ) (center best i : Nat) : Nat :=
  let best1 := if scores.getD (center - i) 0 > scores.getD best 0 then center - i else best
  if scores.getD (center + i) 0 > scores.getD best1 0 then center + i else best1

/-- The lag selection as the specification words it, for a window of `M`
samples and `2M - 1` scores: start at the center index `M - 1` and expand
outward for `i = 1, 2, ..., M - 1`. -/
def specLagSearch (scores : List ℚ) (M : Nat) : Nat :=
  (List.range' 1 (M - 1)).foldl (specSearchStep scores (M - 1)) (M - 1)

/-- Two full buffers of two samples whose values are all 0, so that the
correlation profile is flat; the inertial timestamps are 5 ns later than the
vision timestamps. -/
def flatAligner : Aligner :=
  { do_imu_rate_estimation_ := true
    imu_period_s_ := 1 / 200
    imu_variance_threshold_ := 0
    imu_buffer_ := ⟨2, [⟨5, 0⟩, ⟨15, 0⟩], 2⟩
    vision_buffer_ := ⟨2, [⟨0, 0⟩, ⟨10, 0⟩], 2⟩ }

/-- The vision samples of an interpolation as the specification words them:
for each of the `N` newest inertial samples, `ratio = (its timestamp -
reference) / span`, timestamp `t_start + ratio * (t_end - t_start)` and value
`prev_value + ratio * (angle - prev_value)`.  Differences of timestamps are
taken to seconds by `NsecToSec` and the time offset back to the timestamp type
by `SecToNsec`. -/
def specInterpolatedSamples (env : Env) (t_start t_end : Timestamp)
    (angle prev_value : ℚ) (reference : Timestamp) (span : ℚ)
    (newest : List Measurement) : List Measurement :=
  newest.map fun m =>
    let ratio := env.NsecToSec (m.timestamp - reference) / span
    ⟨t_start + env.SecToNsec (ratio * env.NsecToSec (t_end - t_start)),
      prev_value + ratio * (angle - prev_value)⟩

/-- Exact arithmetic for the two time conversions of a library instance:
nanoseconds to seconds keeps the order and maps 0 to 0, seconds to
nanoseconds keeps the order, and converting a whole number of nanoseconds to
seconds and back returns it. -/
structure ExactTime (env : Env) : Prop where
  nsec_mono : ∀ s t : Timestamp, s ≤ t → env.NsecToSec s ≤ env.NsecToSec t
  nsec_zero : env.NsecToSec 0 = 0
  sec_mono : ∀ x y : ℚ, x ≤ y → env.SecToNsec x ≤ env.SecToNsec y
  round_trip : ∀ t : Timestamp, env.SecToNsec (env.NsecToSec t) = t

/-- The arguments of one `attemptEstimation` call. -/
structure Call where
  timestamps_ref_cur : Timestamp × Timestamp
  T_ref_cur : Pose3
  imu : List ImuColumn
deriving DecidableEq, Repr

/-- A sequence of `attemptEstimation` calls on one aligner, each of which
returns normally; `none` as soon as a call stops. -/
def runCalls (env : Env) : Aligner → List Call → Option Aligner
  | a, [] => some a
  | a, c :: rest =>
    match attemptEstimation env a c.timestamps_ref_cur c.T_ref_cur c.imu with
    | .ok (_, a2) => runCalls env a2 rest
    | .error _ => none

/-- A high-rate aligner on a cold start: two inertial samples have just been
added, the vision buffer is still empty. -/
def coldStartAligner : Aligner :=
  { do_imu_rate_estimation_ := true
    imu_period_s_ := 1 / 200
    imu_variance_threshold_ := 3
    imu_buffer_ := ⟨5, [⟨0, 1 / 100⟩, ⟨5000000, 1 / 50⟩], 2⟩
    vision_buffer_ := ⟨5, [], 0⟩ }

/-- The aligner `coldStartAligner` after the interpolation over the frame
interval (0, 10 ms) with a relative rotation of angle 1/10. -/
def coldStartInterpolated : Aligner :=
  { coldStartAligner with vision_buffer_ := ⟨5, [⟨0, 0⟩, ⟨10000000, 1 / 10⟩], 2⟩ }

/-- A high-rate aligner whose two inertial samples carry the same timestamp,
so that the span of an interpolation over them is 0. -/
def zeroSpanAligner : Aligner :=
  { do_imu_rate_estimation_ := true
    imu_period_s_ := 1 / 200
    imu_variance_threshold_ := 3
    imu_buffer_ := ⟨5, [⟨7, 1 / 100⟩, ⟨7, 1 / 50⟩], 2⟩
    vision_buffer_ := ⟨5, [], 0⟩ }

/-- A high-rate aligner whose only inertial sample is stamped 100 ms, after
the frame interval (0, 10 ms). -/
def lateImuAligner : Aligner :=
  { do_imu_rate_estimation_ := true
    imu_period_s_ := 1 / 200
    imu_variance_threshold_ := 3
    imu_buffer_ := ⟨5, [⟨100000000, 1 / 100⟩], 1⟩
    vision_buffer_ := ⟨5, [], 0⟩ }

/-- A high-rate aligner whose three inertial samples are stamped 0, 10 ms and
5 ms, in this order. -/
def unorderedAligner : Aligner :=
  { do_imu_rate_estimation_ := true
    imu_period_s_ := 1 / 200
    imu_variance_threshold_ := 3
    imu_buffer_ := ⟨5, [⟨0, 1 / 100⟩, ⟨10000000, 1 / 100⟩, ⟨5000000, 1 / 100⟩], 3⟩
    vision_buffer_ := ⟨5, [], 0⟩ }

/-- Two consecutive high-rate calls: the first batch is `twoColumns` over the
frame interval (0, 10 ms); the second, over (10 ms, 20 ms), repeats the
boundary column at 5 ms and adds columns at 10 ms and 15 ms. -/
def twoCalls : List Call :=
  [⟨(0, 10000000), ⟨1 / 10⟩, twoColumns⟩,
   ⟨(10000000, 20000000), ⟨1 / 5⟩,
     [⟨5000000, ⟨0, 0, 0⟩, ⟨0, 0, 4⟩⟩, ⟨10000000, ⟨0, 0, 0⟩, ⟨0, 0, 6⟩⟩,
      ⟨15000000, ⟨0, 0, 0⟩, ⟨0, 0, 8⟩⟩]⟩]

/-- The fresh aligner of `highRateParams` after `twoCalls`. -/
def afterTwoCalls : Aligner :=
  { do_imu_rate_estimation_ := true
    imu_period_s_ := 1 / 200
    imu_variance_threshold_ := 3
    imu_buffer_ := ⟨5, [⟨0, 1 / 100⟩, ⟨5000000, 1 / 50⟩, ⟨10000000, 3 / 100⟩,
      ⟨15000000, 1 / 25⟩], 4⟩
    vision_buffer_ := ⟨5, [⟨0, 0⟩, ⟨10000000, 1 / 10⟩, ⟨15000000, 3 / 20⟩,
      ⟨20000000, 1 / 5⟩], 4⟩ }

/-- Two consecutive low-rate calls with the batch `twoColumns`, over the frame
intervals (0, 10 ms) and (10 ms, 20 ms). -/
def twoLowRateCalls : List Call :=
  [⟨(0, 10000000), ⟨1 / 10⟩, twoColumns⟩, ⟨(10000000, 20000000), ⟨1 / 5⟩, twoColumns⟩]

/-- The fresh aligner of `lowRateParams` (window of one sample) after
`twoLowRateCalls`: each buffer has received two samples and holds the second. -/
def afterTwoLowRateCalls : Aligner :=
  { do_imu_rate_estimation_ := false
    imu_period_s_ := 1 / 200
    imu_variance_threshold_ := 3
    imu_buffer_ := ⟨1, [⟨20000000, 3 / 100⟩], 2⟩
    vision_buffer_ := ⟨1, [⟨20000000, 1 / 5⟩], 2⟩ }

/-- The aligner a call leaves behind, whether it returned or stopped. -/
def stateAfter (out : Except (Failure × Aligner) (Result × Aligner)) : Aligner :=
  match out with
  | .ok (_, a) => a
  | .error (_, a) => a

/-! ## Frame lemmas: the configuration members are never written -/

theorem addNewImuData_threshold (env : Env) (a : Aligner) (t : Timestamp)
    (imu : List ImuColumn) :
    (addNewImuData env a t imu).2.imu_variance_threshold_ = a.imu_variance_threshold_ ∧
    (addNewImuData env a t imu).2.do_imu_rate_estimation_ = a.do_imu_rate_estimation_ ∧
    (addNewImuData env a t imu).2.vision_buffer_ = a.vision_buffer_ := by
  unfold addNewImuData
  cases imu with
  | nil => simp
  | cons c0 rest =>
    by_cases h : a.do_imu_rate_estimation_ = true <;> simp [h]

theorem interpLoop_frame (env : Env) (t_ref : Timestamp) (N : Nat)
    (lfa fd fvd : ℚ) (first_imu : Timestamp) (imu_diff : ℚ) (l : List Nat) :
    ∀ (a a2 : Aligner),
      interpLoop env t_ref N lfa fd fvd first_imu imu_diff l a = .ok a2 →
      a2.imu_variance_threshold_ = a.imu_variance_threshold_ ∧
      a2.do_imu_rate_estimation_ = a.do_imu_rate_estimation_ ∧
      a2.imu_buffer_ = a.imu_buffer_ ∧
      a2.vision_buffer_.pushes = a.vision_buffer_.pushes + l.length := by
  induction l with
  | nil =>
    intro a a2 h
    simp only [interpLoop, Except.ok.injEq] at h
    subst h
    simp
  | cons i rest ih =>
    intro a a2 h
    simp only [interpLoop] at h
    split at h
    · exact absurd h (by simp)
    · split at h
      · exact absurd h (by simp)
      · have := ih _ _ h
        simp only [RingBuffer.push] at this
        refine ⟨this.1, this.2.1, this.2.2.1, ?_⟩
        rw [this.2.2.2, List.length_cons]
        omega

theorem interpNewImageMeasurements_frame (env : Env) (a a2 : Aligner)
    (ts : Timestamp × Timestamp) (T : Pose3) (N : Nat)
    (h : interpNewImageMeasurements env a ts T N = .ok a2) :
    a2.imu_variance_threshold_ = a.imu_variance_threshold_ ∧
    a2.do_imu_rate_estimation_ = a.do_imu_rate_estimation_ ∧
    a2.imu_buffer_ = a.imu_buffer_ ∧
    a2.vision_buffer_.pushes = a.vision_buffer_.pushes + N := by
  unfold interpNewImageMeasurements at h
  simp only at h
  split at h
  · exact absurd h (by simp)
  · split at h
    · rename_i hN
      split at h
      · exact absurd h (by simp)
      · simp only [Except.ok.injEq] at h
        subst h
        simp [RingBuffer.push, hN]
    · split at h
      · split at h
        · exact absurd h (by simp)
        · have := interpLoop_frame _ _ _ _ _ _ _ _ _ _ _ h
          simpa using this
      · exact absurd h (by simp)

/-! ## The orchestrator -/

/-- What `attemptEstimation` does once `pushed` is the aligner after the
inertial and vision pushes (lines 180-199). -/
theorem attemptEstimation_gate (env : Env) (a : Aligner)
    (ts : Timestamp × Timestamp) (T : Pose3) (imu : List ImuColumn)
    (r : Result) (a2 : Aligner)
    (hadd : (addNewImuData env a ts.2 imu).1 ≠ 0)
    (hret : attemptEstimation env a ts T imu = .ok (r, a2)) :
    (a2.vision_buffer_.full = false ∧ r = ⟨false, 0⟩) ∨
    (a2.vision_buffer_.full = true ∧
      env.variance a2.imu_buffer_.values < a2.imu_variance_threshold_ ∧
      r = ⟨false, 0⟩) ∨
    (a2.vision_buffer_.full = true ∧
      ¬ env.variance a2.imu_buffer_.values < a2.imu_variance_threshold_ ∧
      r.valid = true ∧ getTimeShift env a2 = .ok r.imu_time_shift) := by
  unfold attemptEstimation at hret
  simp only [hadd, if_false] at hret
  split at hret
  · exact absurd hret (by simp)
  · rename_i a3 _
    by_cases hfull : a3.vision_buffer_.full = true
    · simp only [hfull, not_true_eq_false, if_false] at hret
      by_cases hvar : env.variance a3.imu_buffer_.values < a3.imu_variance_threshold_
      · simp only [hvar, if_true, Except.ok.injEq, Prod.mk.injEq] at hret
        obtain ⟨hr, ha⟩ := hret
        subst ha
        exact Or.inr (Or.inl ⟨hfull, hvar, hr.symm⟩)
      · simp only [hvar, if_false] at hret
        split at hret
        · exact absurd hret (by simp)
        · rename_i ts2 hts
          simp only [Except.ok.injEq, Prod.mk.injEq] at hret
          obtain ⟨hr, ha⟩ := hret
          subst ha
          subst hr
          exact Or.inr (Or.inr ⟨hfull, hvar, rfl, hts⟩)
    · simp only [Bool.not_eq_true] at hfull
      simp only [hfull, Bool.false_eq_true, not_false_eq_true, if_true, Except.ok.injEq,
        Prod.mk.injEq] at hret
      obtain ⟨hr, ha⟩ := hret
      subst ha
      exact Or.inl ⟨hfull, hr.symm⟩

theorem attemptEstimation_threshold (env : Env) (a : Aligner)
    (ts : Timestamp × Timestamp) (T : Pose3) (imu : List ImuColumn)
    (r : Result) (a2 : Aligner)
    (hret : attemptEstimation env a ts T imu = .ok (r, a2)) :
    a2.imu_variance_threshold_ = a.imu_variance_threshold_ := by
  have hA := addNewImuData_threshold env a ts.2 imu
  unfold attemptEstimation at hret
  simp only at hret
  split at hret
  · simp only [Except.ok.injEq, Prod.mk.injEq] at hret
    rw [← hret.2]; exact hA.1
  · split at hret
    · exact absurd hret (by simp)
    · rename_i a3 hpush
      have h3 : a3.imu_variance_threshold_ = a.imu_variance_threshold_ := by
        unfold pushImageMeasurements at hpush
        split at hpush
        · have := interpNewImageMeasurements_frame _ _ _ _ _ _ hpush
          rw [this.1]; exact hA.1
        · simp only [Except.ok.injEq] at hpush
          subst hpush
          exact hA.1
      have ha : a2 = a3 := by
        split at hret
        · simp only [Except.ok.injEq, Prod.mk.injEq] at hret
          exact hret.2.symm
        · split at hret
          · simp only [Except.ok.injEq, Prod.mk.injEq] at hret
            exact hret.2.symm
          · split at hret
            · exact absurd hret (by simp)
            · simp only [Except.ok.injEq, Prod.mk.injEq] at hret
              exact hret.2.symm
      rw [ha]; exact h3

/-- C2: with an empty inertial batch `attemptEstimation` returns exactly
`{valid: true, timeshift: 0}`, whatever the buffers hold and in either mode,
and leaves the aligner as it was. -/
theorem attemptEstimation_empty_batch (env : Env) (a : Aligner)
    (ts : Timestamp × Timestamp) (T : Pose3) :
    attemptEstimation env a ts T [] = .ok (⟨true, 0⟩, a) := by
  simp [attemptEstimation, addNewImuData]

/-- C1: when at least one inertial measurement was added and the call
returns, the result is valid exactly when the vision buffer is full after the
pushes and the variance of the inertial values is not below the threshold
`3 * gyro_noise_density ^ 2`; then the time shift is the value of
`getTimeShift` on the updated buffers, and otherwise the result is exactly
`{valid: false, timeshift: 0}`. -/
theorem attemptEstimation_result (env : Env) (a : Aligner) (d : ℚ)
    (ts : Timestamp × Timestamp) (T : Pose3) (imu : List ImuColumn)
    (r : Result) (a2 : Aligner)
    (hthr : a.imu_variance_threshold_ = 3 * d ^ 2)
    (hadd : (addNewImuData env a ts.2 imu).1 ≠ 0)
    (hret : attemptEstimation env a ts T imu = .ok (r, a2)) :
    (r.valid = true ↔
      a2.vision_buffer_.full = true ∧
        ¬ env.variance a2.imu_buffer_.values < 3 * d ^ 2) ∧
    (r.valid = true → getTimeShift env a2 = .ok r.imu_time_shift) ∧
    (r.valid = false → r = ⟨false, 0⟩) := by
  have hthr2 : a2.imu_variance_threshold_ = 3 * d ^ 2 := by
    rw [attemptEstimation_threshold env a ts T imu r a2 hret, hthr]
  rw [← hthr2]
  rcases attemptEstimation_gate env a ts T imu r a2 hadd hret with h | h | h
  · obtain ⟨hfull, hr⟩ := h
    subst hr
    simp [hfull]
  · obtain ⟨hfull, hvar, hr⟩ := h
    subst hr
    simp [hvar]
  · obtain ⟨hfull, hvar, hv, hts⟩ := h
    refine ⟨?_, fun _ => hts, ?_⟩
    · simp [hv, hfull, hvar]
    · intro hf
      rw [hv] at hf
      exact absurd hf (by simp)

/-- Witness of C1: a low-rate call on a fresh aligner with a window of one
sample fills the vision buffer, fails the variance gate and returns
`{valid: false, timeshift: 0}`. -/
theorem attemptEstimation_result_witness :
    (addNewImuData rationalEnv (Aligner.new lowRateParams) 10000000 twoColumns).1 ≠ 0 ∧
    attemptEstimation rationalEnv (Aligner.new lowRateParams) (0, 10000000) ⟨1 / 10⟩
        twoColumns =
      .ok (⟨false, 0⟩,
        { do_imu_rate_estimation_ := false
          imu_period_s_ := 1 / 200
          imu_variance_threshold_ := 3
          imu_buffer_ := ⟨1, [⟨10000000, 3 / 100⟩], 1⟩
          vision_buffer_ := ⟨1, [⟨10000000, 1 / 10⟩], 1⟩ }) ∧
    ((false = true ↔
      (RingBuffer.mk 1 [⟨10000000, 1 / 10⟩] 1).full = true ∧
        ¬ rationalEnv.variance (RingBuffer.mk 1 [⟨10000000, 3 / 100⟩] 1).values
            < 3 * 1 ^ 2)) := by
  have h1 : (addNewImuData rationalEnv (Aligner.new lowRateParams) 10000000
      twoColumns).1 ≠ 0 := by
    simp [addNewImuData, Aligner.new, lowRateParams, twoColumns]
  have h2 : attemptEstimation rationalEnv (Aligner.new lowRateParams) (0, 10000000)
      ⟨1 / 10⟩ twoColumns =
      .ok (⟨false, 0⟩,
        { do_imu_rate_estimation_ := false
          imu_period_s_ := 1 / 200
          imu_variance_threshold_ := 3
          imu_buffer_ := ⟨1, [⟨10000000, 3 / 100⟩], 1⟩
          vision_buffer_ := ⟨1, [⟨10000000, 1 / 10⟩], 1⟩ }) := by
    norm_num [attemptEstimation, pushImageMeasurements, addNewImuData, Aligner.new, lowRateParams, twoColumns,
      rationalEnv, RingBuffer.new, RingBuffer.push, RingBuffer.full, RingBuffer.size,
      RingBuffer.values, variance, axisIntegratedAngle, axisNorm]
  exact ⟨h1, h2, (attemptEstimation_result rationalEnv _ 1 _ _ _ _ _
    (by simp [Aligner.new, lowRateParams]) h1 h2).1⟩

/-! ## What a call pushes -/

theorem foldl_push_pushes (f : ImuColumn → Measurement) (l : List ImuColumn) :
    ∀ b : RingBuffer,
      (l.foldl (fun b c => b.push (f c)) b).pushes = b.pushes + l.length := by
  induction l with
  | nil => intro b; simp
  | cons c rest ih =>
    intro b
    simp only [List.foldl_cons, List.length_cons]
    rw [ih]
    simp only [RingBuffer.push]
    omega

theorem foldl_push_eq_pushAll (f : ImuColumn → Measurement) (l : List ImuColumn)
    (b : RingBuffer) :
    l.foldl (fun b c => b.push (f c)) b = b.pushAll (l.map f) := by
  simp [RingBuffer.pushAll, List.foldl_map]

/-- In either mode the count returned by `addNewImuData` is the number of
`push` calls it made on the inertial buffer. -/
theorem addNewImuData_pushes (env : Env) (a : Aligner) (t : Timestamp)
    (imu : List ImuColumn) :
    (addNewImuData env a t imu).2.imu_buffer_.pushes =
      a.imu_buffer_.pushes + (addNewImuData env a t imu).1 := by
  unfold addNewImuData
  cases imu with
  | nil => simp
  | cons c0 rest =>
    by_cases h : a.do_imu_rate_estimation_ = true
    · simp only [h, not_true_eq_false, if_false]
      rw [foldl_push_pushes]
      simp
    · simp [h, RingBuffer.push]

/-- A call that returns after adding measurements returns the aligner the
vision pushes left. -/
theorem attemptEstimation_ok_state (env : Env) (a : Aligner)
    (ts : Timestamp × Timestamp) (T : Pose3) (imu : List ImuColumn)
    (r : Result) (a2 : Aligner)
    (hadd : (addNewImuData env a ts.2 imu).1 ≠ 0)
    (hret : attemptEstimation env a ts T imu = .ok (r, a2)) :
    pushImageMeasurements env (addNewImuData env a ts.2 imu).2 ts T
      (addNewImuData env a ts.2 imu).1 = .ok a2 := by
  unfold attemptEstimation at hret
  simp only [hadd, if_false] at hret
  split at hret
  · exact absurd hret (by simp)
  · rename_i a3 hpush
    have ha : a2 = a3 := by
      split at hret
      · simp only [Except.ok.injEq, Prod.mk.injEq] at hret
        exact hret.2.symm
      · split at hret
        · simp only [Except.ok.injEq, Prod.mk.injEq] at hret
          exact hret.2.symm
        · split at hret
          · exact absurd hret (by simp)
          · simp only [Except.ok.injEq, Prod.mk.injEq] at hret
            exact hret.2.symm
    rw [ha]
    exact hpush

/-- C9: in high-rate mode a call that returns has pushed as many samples to
the vision buffer as to the inertial buffer, namely the count returned by
`addNewImuData` (zero included). -/
theorem attemptEstimation_high_rate_lockstep (env : Env) (a : Aligner)
    (ts : Timestamp × Timestamp) (T : Pose3) (imu : List ImuColumn)
    (r : Result) (a2 : Aligner)
    (hmode : a.do_imu_rate_estimation_ = true)
    (hret : attemptEstimation env a ts T imu = .ok (r, a2)) :
    a2.vision_buffer_.pushes =
        a.vision_buffer_.pushes + (addNewImuData env a ts.2 imu).1 ∧
    a2.imu_buffer_.pushes =
        a.imu_buffer_.pushes + (addNewImuData env a ts.2 imu).1 := by
  have hA := addNewImuData_threshold env a ts.2 imu
  have hP := addNewImuData_pushes env a ts.2 imu
  by_cases hadd : (addNewImuData env a ts.2 imu).1 = 0
  · unfold attemptEstimation at hret
    simp only [hadd, if_true, Except.ok.injEq, Prod.mk.injEq] at hret
    rw [← hret.2, hadd]
    rw [hadd] at hP
    exact ⟨by rw [hA.2.2]; rfl, hP⟩
  · have hst := attemptEstimation_ok_state env a ts T imu r a2 hadd hret
    unfold pushImageMeasurements at hst
    rw [hA.2.1, hmode] at hst
    simp only [if_true] at hst
    have hF := interpNewImageMeasurements_frame _ _ _ _ _ _ hst
    refine ⟨?_, ?_⟩
    · rw [hF.2.2.2, hA.2.2]
    · rw [hF.2.2.1]; exact hP

/-- Witness of C9: a high-rate call on a fresh aligner with a batch of two
columns returns after two inertial and two interpolated vision pushes. -/
theorem attemptEstimation_high_rate_lockstep_witness :
    (Aligner.new highRateParams).do_imu_rate_estimation_ = true ∧
    attemptEstimation rationalEnv (Aligner.new highRateParams) (0, 10000000) ⟨1 / 10⟩
        twoColumns =
      .ok (⟨false, 0⟩,
        { do_imu_rate_estimation_ := true
          imu_period_s_ := 1 / 200
          imu_variance_threshold_ := 3
          imu_buffer_ := ⟨5, [⟨0, 1 / 100⟩, ⟨5000000, 1 / 50⟩], 2⟩
          vision_buffer_ := ⟨5, [⟨0, 0⟩, ⟨10000000, 1 / 10⟩], 2⟩ }) ∧
    (2 = (Aligner.new highRateParams).vision_buffer_.pushes +
          (addNewImuData rationalEnv (Aligner.new highRateParams) 10000000 twoColumns).1 ∧
     2 = (Aligner.new highRateParams).imu_buffer_.pushes +
          (addNewImuData rationalEnv (Aligner.new highRateParams) 10000000 twoColumns).1) := by
  have h2 : attemptEstimation rationalEnv (Aligner.new highRateParams) (0, 10000000)
      ⟨1 / 10⟩ twoColumns =
      .ok (⟨false, 0⟩,
        { do_imu_rate_estimation_ := true
          imu_period_s_ := 1 / 200
          imu_variance_threshold_ := 3
          imu_buffer_ := ⟨5, [⟨0, 1 / 100⟩, ⟨5000000, 1 / 50⟩], 2⟩
          vision_buffer_ := ⟨5, [⟨0, 0⟩, ⟨10000000, 1 / 10⟩], 2⟩ }) := by
    norm_num [attemptEstimation, pushImageMeasurements, addNewImuData, interpNewImageMeasurements, interpLoop,
      Aligner.new, highRateParams, twoColumns, rationalEnv, RingBuffer.new,
      RingBuffer.push, RingBuffer.full, RingBuffer.size, RingBuffer.back?,
      RingBuffer.get?, RingBuffer.values, NsecToSec, SecToNsec, axisNorm, List.range,
      List.range.loop]
  exact ⟨rfl, h2, attemptEstimation_high_rate_lockstep rationalEnv _ _ _ _ _ _ rfl h2⟩

/-- C10: in high-rate mode `addNewImuData` on a non-empty batch skips the
first column exactly when the inertial buffer is non-empty and its most recent
timestamp is at or after the first column's; it pushes the other columns in
batch order, each at its own timestamp with value `norm(gyr) * period`, and
returns the number pushed: `L - 1` when the first column is skipped, `L`
otherwise. -/
theorem addNewImuData_high_rate (env : Env) (a : Aligner) (t : Timestamp)
    (c0 : ImuColumn) (rest : List ImuColumn)
    (hmode : a.do_imu_rate_estimation_ = true) :
    ((0 < a.imu_buffer_.size ∧
        ∃ last, a.imu_buffer_.back? = some last ∧ last.timestamp ≥ c0.stamp) →
      addNewImuData env a t (c0 :: rest) =
        ((c0 :: rest).length - 1,
         { a with imu_buffer_ := a.imu_buffer_.pushAll (rest.map fun c => ⟨c.stamp, env.norm c.gyr * a.imu_period_s_⟩) })) ∧
    (¬ (0 < a.imu_buffer_.size ∧
        ∃ last, a.imu_buffer_.back? = some last ∧ last.timestamp ≥ c0.stamp) →
      addNewImuData env a t (c0 :: rest) =
        ((c0 :: rest).length,
         { a with imu_buffer_ := a.imu_buffer_.pushAll ((c0 :: rest).map fun c => ⟨c.stamp, env.norm c.gyr * a.imu_period_s_⟩) })) ∧
    (addNewImuData env a t (c0 :: rest)).2.imu_buffer_.pushes =
      a.imu_buffer_.pushes + (addNewImuData env a t (c0 :: rest)).1 := by
  refine ⟨?_, ?_, addNewImuData_pushes env a t (c0 :: rest)⟩
  · rintro ⟨_, last, hlast, hge⟩
    simp only [addNewImuData, hmode, not_true_eq_false, if_false, hlast, hge, if_true,
      List.drop_one, List.tail_cons, foldl_push_eq_pushAll, List.length_cons]
  · intro hskip
    cases hb : a.imu_buffer_.back? with
    | none =>
      simp only [addNewImuData, hmode, not_true_eq_false, if_false, hb, List.drop_zero,
        foldl_push_eq_pushAll, List.length_cons, Nat.sub_zero]
    | some last =>
      have hlt : ¬ last.timestamp ≥ c0.stamp := by
        intro hge
        apply hskip
        refine ⟨?_, last, hb, hge⟩
        unfold RingBuffer.back? at hb
        unfold RingBuffer.size
        cases hi : a.imu_buffer_.items with
        | nil => rw [hi] at hb; simp at hb
        | cons x xs => simp
      simp only [addNewImuData, hmode, not_true_eq_false, if_false, hb, hlt,
        List.drop_zero, foldl_push_eq_pushAll, List.length_cons, Nat.sub_zero]

/-- Witness of C10: the buffer ends at time 0 and the batch starts at time
0, so the first column is skipped and one sample is pushed. -/
theorem addNewImuData_high_rate_witness :
    seededAligner.do_imu_rate_estimation_ = true ∧
    (0 < seededAligner.imu_buffer_.size ∧
      ∃ last, seededAligner.imu_buffer_.back? = some last ∧ last.timestamp ≥ 0) ∧
    addNewImuData rationalEnv seededAligner 10000000
        [⟨0, ⟨0, 0, 0⟩, ⟨0, 0, 2⟩⟩, ⟨5000000, ⟨0, 0, 0⟩, ⟨0, 0, 4⟩⟩] =
      (1, { seededAligner with imu_buffer_ := ⟨5, [⟨0, 1 / 100⟩, ⟨5000000, 1 / 50⟩], 2⟩ }) := by
  have hskip : 0 < seededAligner.imu_buffer_.size ∧
      ∃ last, seededAligner.imu_buffer_.back? = some last ∧ last.timestamp ≥ 0 :=
    ⟨by decide, ⟨0, 1 / 100⟩, rfl, le_refl _⟩
  refine ⟨rfl, hskip, ?_⟩
  rw [(addNewImuData_high_rate rationalEnv seededAligner 10000000
    ⟨0, ⟨0, 0, 0⟩, ⟨0, 0, 2⟩⟩ [⟨5000000, ⟨0, 0, 0⟩, ⟨0, 0, 4⟩⟩] rfl).1 hskip]
  norm_num [seededAligner, rationalEnv, RingBuffer.pushAll, RingBuffer.push, axisNorm]

/-- C8: in low-rate mode a call with a non-empty batch of any length makes
exactly one push on the inertial buffer and one on the vision buffer, both at
the frame-end timestamp, the vision value being the rotation-angle magnitude
of the relative rotation; this holds whether the call then returns or not. -/
theorem attemptEstimation_low_rate_pushes (env : Env) (a : Aligner)
    (ts : Timestamp × Timestamp) (T : Pose3) (imu : List ImuColumn)
    (hmode : a.do_imu_rate_estimation_ = false) (hne : imu ≠ []) :
    (stateAfter (attemptEstimation env a ts T imu)).imu_buffer_ =
      a.imu_buffer_.push
        ⟨ts.2, env.integratedAngle (imu.map fun c => c.gyr) a.imu_period_s_⟩ ∧
    (stateAfter (attemptEstimation env a ts T imu)).vision_buffer_ =
      a.vision_buffer_.push ⟨ts.2, T.rotationLogNorm⟩ ∧
    (stateAfter (attemptEstimation env a ts T imu)).imu_buffer_.pushes =
      a.imu_buffer_.pushes + 1 ∧
    (stateAfter (attemptEstimation env a ts T imu)).vision_buffer_.pushes =
      a.vision_buffer_.pushes + 1 := by
  cases imu with
  | nil => exact absurd rfl hne
  | cons c0 rest =>
    have key : stateAfter (attemptEstimation env a ts T (c0 :: rest)) =
        { a with
          imu_buffer_ := a.imu_buffer_.push (Measurement.mk ts.2 (env.integratedAngle ((c0 :: rest).map fun c => c.gyr) a.imu_period_s_))
          vision_buffer_ := a.vision_buffer_.push (Measurement.mk ts.2 T.rotationLogNorm) } := by
      simp only [attemptEstimation, pushImageMeasurements, addNewImuData, hmode,
        Bool.false_eq_true, not_false_eq_true, if_true, one_ne_zero, if_false]
      split
      · rfl
      · split
        · rfl
        · split <;> rfl
    rw [key]
    simp [RingBuffer.push]

/-- Witness of C8: a low-rate call with a batch of two columns on a fresh
aligner. -/
theorem attemptEstimation_low_rate_pushes_witness :
    (Aligner.new lowRateParams).do_imu_rate_estimation_ = false ∧
    twoColumns ≠ [] ∧
    (stateAfter (attemptEstimation rationalEnv (Aligner.new lowRateParams)
        (0, 10000000) ⟨1 / 10⟩ twoColumns)).vision_buffer_ =
      (Aligner.new lowRateParams).vision_buffer_.push ⟨10000000, 1 / 10⟩ ∧
    (stateAfter (attemptEstimation rationalEnv (Aligner.new lowRateParams)
        (0, 10000000) ⟨1 / 10⟩ twoColumns)).vision_buffer_.pushes = 0 + 1 :=
  have h := attemptEstimation_low_rate_pushes rationalEnv (Aligner.new lowRateParams)
    (0, 10000000) ⟨1 / 10⟩ twoColumns rfl (by simp [twoColumns])
  ⟨rfl, by simp [twoColumns], h.2.1, h.2.2.2⟩

/-- C7 (amended): when the noise density is not 0, at least one inertial
measurement was added, and the pushes of the call leave the vision buffer full
and the inertial values with variance 0, the call returns exactly
`{valid: false, timeshift: 0}`. -/
theorem attemptEstimation_zero_variance (env : Env) (a : Aligner) (d : ℚ)
    (ts : Timestamp × Timestamp) (T : Pose3) (imu : List ImuColumn) (a2 : Aligner)
    (hthr : a.imu_variance_threshold_ = 3 * d ^ 2) (hd : d ≠ 0)
    (hadd : (addNewImuData env a ts.2 imu).1 ≠ 0)
    (hpush : pushImageMeasurements env (addNewImuData env a ts.2 imu).2 ts T
      (addNewImuData env a ts.2 imu).1 = .ok a2)
    (hfull : a2.vision_buffer_.full = true)
    (hvar : env.variance a2.imu_buffer_.values = 0) :
    attemptEstimation env a ts T imu = .ok (⟨false, 0⟩, a2) := by
  have hthr2 : a2.imu_variance_threshold_ = 3 * d ^ 2 := by
    have hA := addNewImuData_threshold env a ts.2 imu
    unfold pushImageMeasurements at hpush
    split at hpush
    · rw [(interpNewImageMeasurements_frame _ _ _ _ _ _ hpush).1, hA.1, hthr]
    · simp only [Except.ok.injEq] at hpush
      subst hpush
      rw [← hthr]; exact hA.1
  have hpos : (0 : ℚ) < 3 * d ^ 2 := by positivity
  unfold attemptEstimation
  simp only [hadd, if_false, hpush, hfull, not_true_eq_false, hvar, hthr2, hpos, if_true]

/-- Witness of C7 (amended): noise density 1, window of one sample, low-rate
mode; the single inertial value has variance 0 and the call returns
`{valid: false, timeshift: 0}`. -/
theorem attemptEstimation_zero_variance_witness :
    (1 : ℚ) ≠ 0 ∧
    lowRateAfterOneCall.vision_buffer_.full = true ∧
    rationalEnv.variance lowRateAfterOneCall.imu_buffer_.values = 0 ∧
    attemptEstimation rationalEnv (Aligner.new lowRateParams) (0, 10000000) ⟨1 / 10⟩
        twoColumns = .ok (⟨false, 0⟩, lowRateAfterOneCall) := by
  have hfull : lowRateAfterOneCall.vision_buffer_.full = true := by decide
  have hvar : rationalEnv.variance lowRateAfterOneCall.imu_buffer_.values = 0 := by
    norm_num [rationalEnv, variance, lowRateAfterOneCall, RingBuffer.values]
  exact ⟨one_ne_zero, hfull, hvar,
    attemptEstimation_zero_variance rationalEnv (Aligner.new lowRateParams) 1
      (0, 10000000) ⟨1 / 10⟩ twoColumns lowRateAfterOneCall
      (by norm_num [Aligner.new, lowRateParams]) one_ne_zero
      (by simp [addNewImuData, Aligner.new, lowRateParams, twoColumns])
      (by norm_num [pushImageMeasurements, addNewImuData, Aligner.new, lowRateParams,
        twoColumns, rationalEnv, RingBuffer.new, RingBuffer.push, axisIntegratedAngle,
        axisNorm, lowRateAfterOneCall])
      hfull hvar⟩

/-- Counterexample to C7 as stated.  (1) With noise density 0 the threshold
is 0 and a zero variance is not below it: the call passes the gate and goes
on to `getTimeShift`; it returns `valid = true` as soon as the correlation
array covers the indices read.  (2) In high-rate mode a non-empty batch whose
only column is the skipped boundary sample adds nothing, and the call returns
`{valid: true, timeshift: 0}` although the vision buffer is full and the
inertial values are constant. -/
theorem attemptEstimation_zero_variance_counterexample :
    (zeroNoiseParams.gyro_noise_density_ ≥ 0 ∧
      zeroNoiseParams.time_alignment_window_size_ > 0 ∧
      zeroNoiseAfterOneCall.vision_buffer_.full = true ∧
      rationalEnv.variance zeroNoiseAfterOneCall.imu_buffer_.values = 0 ∧
      attemptEstimation rationalEnv (Aligner.new zeroNoiseParams) (0, 10000000)
          ⟨1 / 10⟩ twoColumns = .error (.outOfRange, zeroNoiseAfterOneCall) ∧
      attemptEstimation twoScoreEnv (Aligner.new zeroNoiseParams) (0, 10000000)
          ⟨1 / 10⟩ twoColumns = .ok (⟨true, 0⟩, zeroNoiseAfterOneCall)) ∧
    (fullAligner.vision_buffer_.full = true ∧
      rationalEnv.variance fullAligner.imu_buffer_.values = 0 ∧
      attemptEstimation rationalEnv fullAligner (0, 10000000) ⟨1 / 10⟩
          [⟨0, ⟨0, 0, 0⟩, ⟨0, 0, 2⟩⟩] = .ok (⟨true, 0⟩, fullAligner)) := by
  refine ⟨⟨le_refl _, by decide, by decide, ?_, ?_, ?_⟩, by decide, ?_, ?_⟩ <;> decide!

/-! ## The lag search of `getTimeShift` -/

theorem searchStep_error (correlation : List ℚ) (N : Nat) (best : Nat × ℚ) (i : Nat)
    (f : Failure) (h : searchStep correlation N best i = .error f) :
    f = .outOfRange := by
  cases hlo : correlation[N - i]? with
  | none =>
    simp only [searchStep, hlo, Except.error.injEq] at h
    exact h.symm
  | some lo =>
    cases hhi : correlation[N + i]? with
    | none =>
      simp only [searchStep, hlo, hhi, Except.error.injEq] at h
      exact h.symm
    | some hi =>
      simp only [searchStep, hlo, hhi] at h
      exact absurd h (by simp)

theorem searchStep_upper_missing (correlation : List ℚ) (N : Nat) (best : Nat × ℚ)
    (i : Nat) (h : correlation[N + i]? = none) :
    searchStep correlation N best i = .error .outOfRange := by
  cases hlo : correlation[N - i]? with
  | none => simp only [searchStep, hlo]
  | some lo => simp only [searchStep, hlo, h]

/-- The loop stops at an index outside the array as soon as one of its steps
reads `correlation[N + i]` beyond the end. -/
theorem searchLoop_upper_missing (correlation : List ℚ) (N i : Nat)
    (h : correlation[N + i]? = none) (l : List Nat) (hi : i ∈ l) :
    ∀ best, searchLoop correlation N l best = .error .outOfRange := by
  induction l with
  | nil => exact absurd hi (by simp)
  | cons j rest ih =>
    intro best
    simp only [searchLoop]
    cases hs : searchStep correlation N best j with
    | error f =>
      simp only [searchStep_error _ _ _ _ _ hs]
    | ok best1 =>
      simp only
      rcases List.mem_cons.mp hi with hij | hir
      · subst hij
        rw [searchStep_upper_missing _ _ _ _ h] at hs
        exact absurd hs (by simp)
      · exact ih hir best1

/-- On an array of `2M - 1` scores the search of `getTimeShift` never
completes: it starts at index `M` and reads index `2M - 1` (index 1 when
`M = 1`), one past the end. -/
theorem maxCorrelationIndex_outOfRange (correlation : List ℚ) (M : Nat)
    (hM : 1 ≤ M) (hlen : correlation.length = 2 * M - 1) :
    maxCorrelationIndex correlation M = .error .outOfRange := by
  unfold maxCorrelationIndex
  cases hc : correlation[M]? with
  | none => rfl
  | some c =>
    have hlt : M < correlation.length := by
      by_contra hge
      rw [List.getElem?_eq_none (by omega)] at hc
      exact absurd hc (by simp)
    have hmem : M - 1 ∈ List.range' 1 (M - 1) := by
      rw [List.mem_range'_1]; omega
    have hnone : correlation[M + (M - 1)]? = none :=
      List.getElem?_eq_none (by omega)
    simp only [searchLoop_upper_missing correlation M (M - 1) hnone _ hmem]

theorem searchStep_index_pos (correlation : List ℚ) (N : Nat) (best best1 : Nat × ℚ)
    (i : Nat) (hi : i < N) (hb : 1 ≤ best.1)
    (h : searchStep correlation N best i = .ok best1) : 1 ≤ best1.1 := by
  cases hlo : correlation[N - i]? with
  | none =>
    simp only [searchStep, hlo] at h
    exact absurd h (by simp)
  | some lo =>
    cases hhi : correlation[N + i]? with
    | none =>
      simp only [searchStep, hlo, hhi] at h
      exact absurd h (by simp)
    | some hi =>
      simp only [searchStep, hlo, hhi, Except.ok.injEq] at h
      subst h
      by_cases h1 : hi > (if lo > best.2 then (N - i, lo) else best).2
      · simp only [h1, if_true]; omega
      · simp only [h1, if_false]
        by_cases h2 : lo > best.2
        · simp only [h2, if_true]; omega
        · simp only [h2, if_false]; exact hb

theorem searchLoop_index_pos (correlation : List ℚ) (N : Nat) (l : List Nat)
    (hl : ∀ i ∈ l, i < N) :
    ∀ best best1, 1 ≤ best.1 → searchLoop correlation N l best = .ok best1 →
      1 ≤ best1.1 := by
  induction l with
  | nil =>
    intro best best1 hb h
    simp only [searchLoop, Except.ok.injEq] at h
    subst h; exact hb
  | cons j rest ih =>
    intro best best1 hb h
    simp only [searchLoop] at h
    split at h
    · exact absurd h (by simp)
    · rename_i b2 hs
      exact ih (fun i hi => hl i (List.mem_cons_of_mem _ hi)) b2 best1
        (searchStep_index_pos _ _ _ _ _ (hl j (List.mem_cons_self _ _)) hb hs) h

/-- Whatever the array, the search of `getTimeShift` never selects index 0:
the lowest index it examines is `N - (N - 1) = 1`. -/
theorem maxCorrelationIndex_pos (correlation : List ℚ) (N k : Nat) (hN : 1 ≤ N)
    (h : maxCorrelationIndex correlation N = .ok k) : 1 ≤ k := by
  unfold maxCorrelationIndex at h
  split at h
  · exact absurd h (by simp)
  · split at h
    · exact absurd h (by simp)
    · rename_i c _ _ best hs
      simp only [Except.ok.injEq] at h
      subst h
      refine searchLoop_index_pos correlation N _ ?_ (N, c) best hN hs
      intro i hi
      rw [List.mem_range'_1] at hi
      omega

/-- C3 (the code departs from the claim): for a window of two samples and the
three scores `[9, 1, 2]` the search of the specification starts at the center
index 1 and selects index 0.  The search of `getTimeShift` starts at index 2
and reads index 3, which the array does not have; and whatever score `g` stood
at index 3, the index selected would not be 0. -/
theorem maxCorrelationIndex_center_shifted :
    specLagSearch [9, 1, 2] 2 = 0 ∧
    maxCorrelationIndex [9, 1, 2] 2 = .error .outOfRange ∧
    ∀ g : ℚ, maxCorrelationIndex [9, 1, 2, g] 2 ≠ .ok 0 := by
  refine ⟨by decide!, maxCorrelationIndex_outOfRange _ 2 (by decide) rfl, ?_⟩
  intro g h
  have := maxCorrelationIndex_pos _ 2 0 (by decide) h
  omega

/-- C4 (the code departs from the claim): for a window of three samples and
the five scores `[8, 1, 2, 3, 1]` the maximum 8 stands at index 0.  The search
of `getTimeShift` reads index 5, which the array does not have; and whatever
score `g` stood at index 5, the index selected would be 3 (score 3) or 5,
never the index of the maximum. -/
theorem maxCorrelationIndex_not_argmax :
    maxCorrelationIndex [8, 1, 2, 3, 1] 3 = .error .outOfRange ∧
    ∀ (g : ℚ) (k : Nat),
      maxCorrelationIndex [8, 1, 2, 3, 1, g] 3 = .ok k → k = 3 ∨ k = 5 := by
  refine ⟨maxCorrelationIndex_outOfRange _ 3 (by decide) rfl, ?_⟩
  intro g k h
  by_cases hg : g > 3
  · have h3 : ((3 : ℚ) < g) = True := eq_true hg
    norm_num [maxCorrelationIndex, searchLoop, searchStep, List.range', h3] at h
    exact Or.inr h.symm
  · have h3 : ((3 : ℚ) < g) = False := eq_false hg
    norm_num [maxCorrelationIndex, searchLoop, searchStep, List.range', h3] at h
    exact Or.inl h.symm

/-! ## From the selected index to the time shift -/

/-- The time shift of lines 146-158 for a window of `M` samples, `2M - 1`
scores and a selected index `w` inside the array. -/
theorem timeShiftOfIndex_eq (env : Env) (vision imu : RingBuffer) (M w : Nat)
    (hM : 1 ≤ M) (hv : vision.size = M) (hi : imu.size = M) (hw : w < 2 * M - 1) :
    ∃ m v0,
      imu.get? ((M : Int) - ((2 * M - 1 : Nat) : Int) + (w : Int)).natAbs = some m ∧
      vision.front? = some v0 ∧
      timeShiftOfIndex env vision imu (2 * M - 1) w =
        .ok (if M ≤ w then env.NsecToSec (m.timestamp - v0.timestamp)
             else env.NsecToSec (v0.timestamp - m.timestamp)) := by
  have hk : ((M : Int) - ((2 * M - 1 : Nat) : Int) + (w : Int)).natAbs < imu.items.length := by
    unfold RingBuffer.size at hi
    omega
  obtain ⟨v0, hv0⟩ : ∃ v0, vision.front? = some v0 := by
    unfold RingBuffer.front?
    unfold RingBuffer.size at hv
    cases hitems : vision.items with
    | nil => rw [hitems] at hv; simp at hv; omega
    | cons x xs => exact ⟨x, rfl⟩
  refine ⟨imu.items[((M : Int) - ((2 * M - 1 : Nat) : Int) + (w : Int)).natAbs], v0, ?_,
    hv0, ?_⟩
  · unfold RingBuffer.get?
    exact List.getElem?_eq_getElem hk
  · unfold timeShiftOfIndex
    simp only [hv, RingBuffer.get?, List.getElem?_eq_getElem hk, hv0, ge_iff_le]
    split <;> rfl

/-- C6 (amended): for full buffers of `M` samples and a selected index `w` of
the `2M - 1` scores, with `k = |M - (2M - 1) + w|`, the time shift is
(timestamp of inertial sample `k`) - (first vision timestamp) if `w ≥ M`, the
vision buffer size, and (first vision timestamp) - (timestamp of inertial
sample `k`) otherwise, the center index `w = M - 1` included; both in
seconds. -/
theorem timeShiftOfIndex_branches (env : Env) (vision imu : RingBuffer) (M w : Nat)
    (hM : 1 ≤ M) (hv : vision.size = M) (hi : imu.size = M) (hw : w < 2 * M - 1) :
    ∃ m v0,
      imu.get? ((M : Int) - ((2 * M - 1 : Nat) : Int) + (w : Int)).natAbs = some m ∧
      vision.front? = some v0 ∧
      (M ≤ w → timeShiftOfIndex env vision imu (2 * M - 1) w =
        .ok (env.NsecToSec (m.timestamp - v0.timestamp))) ∧
      (w < M → timeShiftOfIndex env vision imu (2 * M - 1) w =
        .ok (env.NsecToSec (v0.timestamp - m.timestamp))) := by
  obtain ⟨m, v0, hm, hv0, h⟩ := timeShiftOfIndex_eq env vision imu M w hM hv hi hw
  refine ⟨m, v0, hm, hv0, ?_, ?_⟩
  · intro hle
    rw [h, if_pos hle]
  · intro hlt
    rw [h, if_neg (by omega)]

/-- Witness of C6 (amended): two samples per buffer, selected index 2. -/
theorem timeShiftOfIndex_branches_witness :
    1 ≤ 2 ∧ flatAligner.vision_buffer_.size = 2 ∧ flatAligner.imu_buffer_.size = 2 ∧
    2 < 2 * 2 - 1 ∧
    ∃ m v0,
      flatAligner.imu_buffer_.get?
        ((2 : Int) - ((2 * 2 - 1 : Nat) : Int) + (2 : Int)).natAbs = some m ∧
      flatAligner.vision_buffer_.front? = some v0 ∧
      (2 ≤ 2 → timeShiftOfIndex rationalEnv flatAligner.vision_buffer_
          flatAligner.imu_buffer_ (2 * 2 - 1) 2 =
        .ok (rationalEnv.NsecToSec (m.timestamp - v0.timestamp))) ∧
      (2 < 2 → timeShiftOfIndex rationalEnv flatAligner.vision_buffer_
          flatAligner.imu_buffer_ (2 * 2 - 1) 2 =
        .ok (rationalEnv.NsecToSec (v0.timestamp - m.timestamp))) :=
  ⟨by decide, rfl, rfl, by decide,
    timeShiftOfIndex_branches rationalEnv flatAligner.vision_buffer_
      flatAligner.imu_buffer_ 2 2 (by decide) rfl rfl (by decide)⟩

/-- Counterexample to C6 as stated: two samples per buffer, three scores,
selected index 1, the center.  The claim gives (inertial sample 0) - (first
vision) = 5 ns; the code takes the other branch and returns -5 ns. -/
theorem timeShiftOfIndex_center_counterexample :
    flatAligner.vision_buffer_.size = 2 ∧ flatAligner.imu_buffer_.size = 2 ∧
    ((2 : Int) - ((2 * 2 - 1 : Nat) : Int) + (1 : Int)).natAbs = 0 ∧
    flatAligner.imu_buffer_.get? 0 = some ⟨5, 0⟩ ∧
    flatAligner.vision_buffer_.front? = some ⟨0, 0⟩ ∧
    timeShiftOfIndex rationalEnv flatAligner.vision_buffer_ flatAligner.imu_buffer_
      (2 * 2 - 1) 1 = .ok (-(5 / 1000000000)) ∧
    timeShiftOfIndex rationalEnv flatAligner.vision_buffer_ flatAligner.imu_buffer_
      (2 * 2 - 1) 1 ≠ .ok (rationalEnv.NsecToSec (5 - 0)) := by
  refine ⟨rfl, rfl, by decide, rfl, rfl, by decide!, by decide!⟩

theorem pushAll_nil (b : RingBuffer) : b.pushAll [] = b := rfl

theorem pushAll_cons (b : RingBuffer) (m : Measurement) (ms : List Measurement) :
    b.pushAll (m :: ms) = (b.push m).pushAll ms := rfl

theorem pushAll_append (b : RingBuffer) (xs ys : List Measurement) :
    b.pushAll (xs ++ ys) = (b.pushAll xs).pushAll ys := by
  simp [RingBuffer.pushAll, List.foldl_append]

theorem pushAll_pushes (ms : List Measurement) :
    ∀ b : RingBuffer, (b.pushAll ms).pushes = b.pushes + ms.length := by
  induction ms with
  | nil => intro b; rfl
  | cons m rest ih =>
    intro b
    rw [pushAll_cons, ih, List.length_cons]
    simp only [RingBuffer.push]
    omega

theorem pushAll_capacity (ms : List Measurement) :
    ∀ b : RingBuffer, (b.pushAll ms).capacity = b.capacity := by
  induction ms with
  | nil => intro b; rfl
  | cons m rest ih =>
    intro b
    rw [pushAll_cons, ih]
    rfl

theorem aligner_eta (a : Aligner) :
    { a with imu_buffer_ := a.imu_buffer_, vision_buffer_ := a.vision_buffer_ } = a := by
  cases a; rfl

/-! ## What the interpolation pushes -/

/-- A run of the interpolation loop that completes has read an inertial
sample at every index, passed `CHECK_GE` for each, and pushed one vision
sample per inertial sample read, in order. -/
theorem interpLoop_ok (env : Env) (t_ref : Timestamp) (N : Nat)
    (lfa fd fvd : ℚ) (first_imu : Timestamp) (imu_diff : ℚ) (l : List Nat) :
    ∀ (a a2 : Aligner),
      interpLoop env t_ref N lfa fd fvd first_imu imu_diff l a = .ok a2 →
      ∃ ms : List Measurement,
        l.map (fun i => a.imu_buffer_.get? (a.imu_buffer_.size - N + i)) = ms.map some ∧
        (∀ m ∈ ms, env.NsecToSec (m.timestamp - first_imu) / imu_diff ≥ 0) ∧
        a2 = { a with vision_buffer_ := a.vision_buffer_.pushAll (ms.map fun m => ⟨t_ref + env.SecToNsec (env.NsecToSec (m.timestamp - first_imu) / imu_diff * fd), lfa + fvd * (env.NsecToSec (m.timestamp - first_imu) / imu_diff)⟩) } := by
  induction l with
  | nil =>
    intro a a2 h
    simp only [interpLoop, Except.ok.injEq] at h
    subst h
    exact ⟨[], rfl, by simp, by cases a; rfl⟩
  | cons i rest ih =>
    intro a a2 h
    simp only [interpLoop] at h
    cases hm : a.imu_buffer_.get? (a.imu_buffer_.size - N + i) with
    | none =>
      simp only [hm] at h
      exact absurd h (by simp)
    | some m =>
      simp only [hm] at h
      by_cases hr : env.NsecToSec (m.timestamp - first_imu) / imu_diff ≥ 0
      · simp only [hr, not_true_eq_false, if_false] at h
        obtain ⟨ms, hreads, hge, ha2⟩ := ih _ _ h
        refine ⟨m :: ms, ?_, ?_, ?_⟩
        · simp only [List.map_cons, hm]
          exact congrArg _ hreads
        · intro x hx
          rcases List.mem_cons.mp hx with hx | hx
          · subst hx; exact hr
          · exact hge x hx
        · rw [ha2]
          rfl
      · simp only [hr, not_false_eq_true, if_true] at h
        exact absurd h (by simp)

/-- The inertial samples at the indices `size - N + i`, `i < N`, are the `N`
newest of the buffer. -/
theorem range_map_getElem? (items : List Measurement) (N : Nat) (hN : N ≤ items.length) :
    (List.range N).map (fun i => items[items.length - N + i]?) =
      (items.drop (items.length - N)).map some := by
  apply List.ext_getElem?
  intro k
  simp only [List.getElem?_map, List.getElem?_range, List.getElem?_drop]
  by_cases hk : k < N
  · rw [List.getElem?_range hk]
    have hb : items.length - N + k < items.length := by omega
    simp [List.getElem?_eq_getElem hb]
  · rw [List.getElem?_eq_none (l := List.range N) (by simp; omega)]
    rw [List.getElem?_eq_none (l := items) (by omega)]
    simp

/-- An interpolation with `N ≠ 1` that returns has passed `CHECK_LE` and
`CHECK_GT`, and has pushed the samples the specification describes for the
`N` newest inertial samples. -/
theorem interp_ok_interpolated (env : Env) (a a2 : Aligner)
    (ts : Timestamp × Timestamp) (T : Pose3) (N : Nat) (hN : N ≠ 1)
    (hret : interpNewImageMeasurements env a ts T N = .ok a2) :
    N ≤ a.imu_buffer_.size ∧
    ∃ ref last,
      (if a.imu_buffer_.size = N then a.imu_buffer_.get? 0
        else a.imu_buffer_.get? (a.imu_buffer_.size - N - 1)) = some ref ∧
      a.imu_buffer_.back? = some last ∧
      env.NsecToSec (last.timestamp - ref.timestamp) > 0 ∧
      (∀ m ∈ a.imu_buffer_.items.drop (a.imu_buffer_.size - N),
        env.NsecToSec (m.timestamp - ref.timestamp) /
          env.NsecToSec (last.timestamp - ref.timestamp) ≥ 0) ∧
      a2 = { a with vision_buffer_ := a.vision_buffer_.pushAll (specInterpolatedSamples env ts.1 ts.2 T.rotationLogNorm ((a.vision_buffer_.back?.map fun m => m.value).getD 0) ref.timestamp (env.NsecToSec (last.timestamp - ref.timestamp)) (a.imu_buffer_.items.drop (a.imu_buffer_.size - N))) } := by
  unfold interpNewImageMeasurements at hret
  simp only at hret
  by_cases hle : N ≤ a.imu_buffer_.size
  · simp only [hle, not_true_eq_false, if_false, hN] at hret
    refine ⟨hle, ?_⟩
    cases href : (if a.imu_buffer_.size = N then a.imu_buffer_.get? 0
        else a.imu_buffer_.get? (a.imu_buffer_.size - N - 1)) with
    | none =>
      simp only [href] at hret
      exact absurd hret (by simp)
    | some ref =>
      cases hlast : a.imu_buffer_.back? with
      | none =>
        simp only [href, hlast] at hret
        exact absurd hret (by simp)
      | some last =>
        simp only [href, hlast] at hret
        by_cases hpos : env.NsecToSec (last.timestamp - ref.timestamp) > 0
        · simp only [hpos, not_true_eq_false, if_false] at hret
          obtain ⟨ms, hreads, hge, ha2⟩ := interpLoop_ok _ _ _ _ _ _ _ _ _ _ _ hret
          have hms : ms = a.imu_buffer_.items.drop (a.imu_buffer_.size - N) := by
            have h1 := range_map_getElem? a.imu_buffer_.items N hle
            simp only [RingBuffer.get?, RingBuffer.size] at hreads
            rw [h1] at hreads
            exact (List.map_injective_iff.mpr (Option.some_injective _) hreads).symm
          subst hms
          refine ⟨ref, last, rfl, rfl, hpos, hge, ?_⟩
          rw [ha2]
          have hsamples : ∀ prev : ℚ,
              (List.map (fun m : Measurement => (⟨ts.1 + env.SecToNsec (env.NsecToSec (m.timestamp - ref.timestamp) / env.NsecToSec (last.timestamp - ref.timestamp) * env.NsecToSec (ts.2 - ts.1)), prev + (T.rotationLogNorm - prev) * (env.NsecToSec (m.timestamp - ref.timestamp) / env.NsecToSec (last.timestamp - ref.timestamp))⟩ : Measurement))
                (a.imu_buffer_.items.drop (a.imu_buffer_.size - N))) =
              specInterpolatedSamples env ts.1 ts.2 T.rotationLogNorm prev ref.timestamp
                (env.NsecToSec (last.timestamp - ref.timestamp))
                (a.imu_buffer_.items.drop (a.imu_buffer_.size - N)) := by
            intro prev
            unfold specInterpolatedSamples
            apply List.map_congr_left
            intro m _
            simp only [Measurement.mk.injEq, true_and]
            ring
          cases hv : a.vision_buffer_.back? with
          | none => simp only [hv, Option.map_none', Option.getD_none, hsamples]
          | some v => simp only [hv, Option.map_some', Option.getD_some, hsamples]
        · simp only [hpos, not_false_eq_true, if_true] at hret
          exact absurd hret (by simp)
  · simp only [hle, not_false_eq_true, if_true] at hret
    exact absurd hret (by simp)

/-- C11: with a non-empty inertial buffer, an interpolation with `N == 1`
returns after exactly one vision push; the sample's timestamp is that of the
most recent inertial sample and its value is the rotation-angle magnitude of
the relative rotation, whatever the vision buffer held. -/
theorem interp_single_measurement (env : Env) (a : Aligner)
    (ts : Timestamp × Timestamp) (T : Pose3) (hne : 0 < a.imu_buffer_.size) :
    ∃ last,
      a.imu_buffer_.back? = some last ∧
      interpNewImageMeasurements env a ts T 1 =
        .ok { a with vision_buffer_ := a.vision_buffer_.push ⟨last.timestamp, T.rotationLogNorm⟩ } := by
  cases hlast : a.imu_buffer_.back? with
  | none =>
    unfold RingBuffer.back? at hlast
    unfold RingBuffer.size at hne
    rw [List.getLast?_eq_none_iff] at hlast
    rw [hlast] at hne
    exact absurd hne (by simp)
  | some last =>
    refine ⟨last, rfl, ?_⟩
    have h1 : 1 ≤ a.imu_buffer_.size := hne
    simp only [interpNewImageMeasurements, h1, not_true_eq_false, if_false, if_true, hlast]

/-- Witness of C11: the buffer of `seededAligner` ends at time 0. -/
theorem interp_single_measurement_witness :
    0 < seededAligner.imu_buffer_.size ∧
    ∃ last,
      seededAligner.imu_buffer_.back? = some last ∧
      interpNewImageMeasurements rationalEnv seededAligner (0, 10000000) ⟨1 / 10⟩ 1 =
        .ok { seededAligner with vision_buffer_ := seededAligner.vision_buffer_.push ⟨last.timestamp, 1 / 10⟩ } :=
  ⟨by decide, interp_single_measurement rationalEnv seededAligner (0, 10000000) ⟨1 / 10⟩
    (by decide)⟩

/-- C16: an interpolation with `N > 1` that returns has pushed exactly `N`
vision samples, the ones the specification describes: with `prev_value` the
last vision value before the call (0 on an empty vision buffer), the reference
being inertial sample 0 when the buffer holds exactly `N` samples and the
sample just before the `N` newest otherwise, and the span running from the
reference to the most recent inertial sample. -/
theorem interp_interpolated_samples (env : Env) (a a2 : Aligner)
    (ts : Timestamp × Timestamp) (T : Pose3) (N : Nat) (hN : 1 < N)
    (hret : interpNewImageMeasurements env a ts T N = .ok a2) :
    ∃ ref last,
      (if a.imu_buffer_.size = N then a.imu_buffer_.get? 0
        else a.imu_buffer_.get? (a.imu_buffer_.size - N - 1)) = some ref ∧
      a.imu_buffer_.back? = some last ∧
      (a.imu_buffer_.items.drop (a.imu_buffer_.size - N)).length = N ∧
      a2.imu_buffer_ = a.imu_buffer_ ∧
      a2.vision_buffer_ = a.vision_buffer_.pushAll
        (specInterpolatedSamples env ts.1 ts.2 T.rotationLogNorm
          ((a.vision_buffer_.back?.map fun m => m.value).getD 0) ref.timestamp
          (env.NsecToSec (last.timestamp - ref.timestamp))
          (a.imu_buffer_.items.drop (a.imu_buffer_.size - N))) ∧
      a2.vision_buffer_.pushes = a.vision_buffer_.pushes + N := by
  obtain ⟨hle, ref, last, href, hlast, _, _, ha2⟩ :=
    interp_ok_interpolated env a a2 ts T N (by omega) hret
  have hlen : (a.imu_buffer_.items.drop (a.imu_buffer_.size - N)).length = N := by
    unfold RingBuffer.size at hle ⊢
    rw [List.length_drop]
    omega
  refine ⟨ref, last, href, hlast, hlen, ?_, ?_, ?_⟩
  · rw [ha2]
  · rw [ha2]
  · rw [ha2]
    simp only [pushAll_pushes, specInterpolatedSamples, List.length_map, hlen]

/-- Witness of C16: the cold start of `coldStartAligner`, `N = 2`. -/
theorem interp_interpolated_samples_witness :
    1 < 2 ∧
    interpNewImageMeasurements rationalEnv coldStartAligner (0, 10000000) ⟨1 / 10⟩ 2 =
      .ok coldStartInterpolated ∧
    ∃ ref last,
      (if coldStartAligner.imu_buffer_.size = 2 then coldStartAligner.imu_buffer_.get? 0
        else coldStartAligner.imu_buffer_.get? (coldStartAligner.imu_buffer_.size - 2 - 1)) =
        some ref ∧
      coldStartAligner.imu_buffer_.back? = some last ∧
      (coldStartAligner.imu_buffer_.items.drop
        (coldStartAligner.imu_buffer_.size - 2)).length = 2 ∧
      coldStartInterpolated.imu_buffer_ = coldStartAligner.imu_buffer_ ∧
      coldStartInterpolated.vision_buffer_ = coldStartAligner.vision_buffer_.pushAll
        (specInterpolatedSamples rationalEnv 0 10000000 (1 / 10)
          ((coldStartAligner.vision_buffer_.back?.map fun m => m.value).getD 0)
          ref.timestamp (rationalEnv.NsecToSec (last.timestamp - ref.timestamp))
          (coldStartAligner.imu_buffer_.items.drop
            (coldStartAligner.imu_buffer_.size - 2))) ∧
      coldStartInterpolated.vision_buffer_.pushes =
        coldStartAligner.vision_buffer_.pushes + 2 := by
  have hret : interpNewImageMeasurements rationalEnv coldStartAligner (0, 10000000)
      ⟨1 / 10⟩ 2 = .ok coldStartInterpolated := by decide!
  exact ⟨by decide, hret,
    interp_interpolated_samples rationalEnv coldStartAligner coldStartInterpolated
      (0, 10000000) ⟨1 / 10⟩ 2 (by decide) hret⟩

/-! ## Hard precondition failures -/

/-- C13: an interpolation with `N` above the inertial buffer size stops at
`CHECK_LE`, and one with `N > 1` whose span (most recent inertial timestamp -
reference timestamp) is not positive stops at `CHECK_GT` (at `CHECK_LE` if `N`
is also above the buffer size); in both cases the aligner at the stop is the
aligner before the call, so no vision sample has been pushed.  `hsign` says
that the conversion to seconds does not turn a non-positive number of
nanoseconds into a positive number of seconds. -/
theorem interp_precondition_failures (env : Env) (a : Aligner)
    (ts : Timestamp × Timestamp) (T : Pose3) (N : Nat)
    (hsign : ∀ t : Timestamp, t ≤ 0 → env.NsecToSec t ≤ 0) :
    (a.imu_buffer_.size < N →
      interpNewImageMeasurements env a ts T N = .error (.checkLE, a)) ∧
    (∀ ref last, 1 < N →
      (if a.imu_buffer_.size = N then a.imu_buffer_.get? 0
        else a.imu_buffer_.get? (a.imu_buffer_.size - N - 1)) = some ref →
      a.imu_buffer_.back? = some last →
      last.timestamp - ref.timestamp ≤ 0 →
      interpNewImageMeasurements env a ts T N =
        .error (if N ≤ a.imu_buffer_.size then .checkGT else .checkLE, a)) := by
  refine ⟨?_, ?_⟩
  · intro hlt
    have h : ¬ N ≤ a.imu_buffer_.size := by omega
    simp only [interpNewImageMeasurements, h, not_false_eq_true, if_true]
  · intro ref last hN href hlast hspan
    have h1 : N ≠ 1 := by omega
    have hnp : ¬ env.NsecToSec (last.timestamp - ref.timestamp) > 0 :=
      not_lt.mpr (hsign _ hspan)
    by_cases hle : N ≤ a.imu_buffer_.size
    · simp only [interpNewImageMeasurements, hle, not_true_eq_false, if_false, h1, href,
        hlast, hnp, not_false_eq_true, if_true]
    · simp only [interpNewImageMeasurements, hle, not_false_eq_true, if_true, if_false]

theorem rationalEnv_sign (t : Timestamp) (h : t ≤ 0) : rationalEnv.NsecToSec t ≤ 0 := by
  show (t : ℚ) / 1000000000 ≤ 0
  have : (t : ℚ) ≤ 0 := by exact_mod_cast h
  exact div_nonpos_of_nonpos_of_nonneg this (by norm_num)

/-- Witness of C13: on `zeroSpanAligner` a call with `N = 3` exceeds the two
buffered samples, and a call with `N = 2` has span 0. -/
theorem interp_precondition_failures_witness :
    (∀ t : Timestamp, t ≤ 0 → rationalEnv.NsecToSec t ≤ 0) ∧
    interpNewImageMeasurements rationalEnv zeroSpanAligner (0, 10000000) ⟨1 / 10⟩ 3 =
      .error (.checkLE, zeroSpanAligner) ∧
    interpNewImageMeasurements rationalEnv zeroSpanAligner (0, 10000000) ⟨1 / 10⟩ 2 =
      .error (.checkGT, zeroSpanAligner) :=
  ⟨rationalEnv_sign,
    (interp_precondition_failures rationalEnv zeroSpanAligner (0, 10000000) ⟨1 / 10⟩ 3
      rationalEnv_sign).1 (by decide),
    (interp_precondition_failures rationalEnv zeroSpanAligner (0, 10000000) ⟨1 / 10⟩ 2
      rationalEnv_sign).2 ⟨7, 1 / 100⟩ ⟨7, 1 / 50⟩ (by decide) rfl rfl (by decide)⟩

/-- C19: in high-rate mode, with a non-empty inertial buffer, a batch of
exactly one column whose timestamp is not after the most recent buffered
inertial timestamp adds nothing: the call returns `{valid: true, timeshift: 0}`
and the aligner is unchanged, whatever the buffers hold. -/
theorem attemptEstimation_skipped_batch (env : Env) (a : Aligner)
    (ts : Timestamp × Timestamp) (T : Pose3) (c : ImuColumn) (last : Measurement)
    (hmode : a.do_imu_rate_estimation_ = true)
    (hlast : a.imu_buffer_.back? = some last) (hle : c.stamp ≤ last.timestamp) :
    attemptEstimation env a ts T [c] = .ok (⟨true, 0⟩, a) := by
  have hge : last.timestamp ≥ c.stamp := hle
  simp only [attemptEstimation, addNewImuData, hmode, not_true_eq_false, if_false, hlast,
    hge, if_true, List.length_singleton, Nat.sub_self, List.drop_one, List.tail_cons,
    List.foldl_nil]
  cases a
  simp only at hmode
  subst hmode
  rfl

/-- Witness of C19: the buffers of `fullAligner` are full, the inertial one
ends at time 0 and the single column of the batch is stamped 0. -/
theorem attemptEstimation_skipped_batch_witness :
    fullAligner.do_imu_rate_estimation_ = true ∧
    fullAligner.imu_buffer_.back? = some ⟨0, 1 / 100⟩ ∧
    fullAligner.vision_buffer_.full = true ∧ fullAligner.imu_buffer_.full = true ∧
    attemptEstimation rationalEnv fullAligner (0, 10000000) ⟨1 / 10⟩
      [⟨0, ⟨0, 0, 0⟩, ⟨0, 0, 2⟩⟩] = .ok (⟨true, 0⟩, fullAligner) :=
  ⟨rfl, rfl, by decide, by decide,
    attemptEstimation_skipped_batch rationalEnv fullAligner (0, 10000000) ⟨1 / 10⟩
      ⟨0, ⟨0, 0, 0⟩, ⟨0, 0, 2⟩⟩ ⟨0, 1 / 100⟩ rfl rfl (le_refl _)⟩

/-- C17 (the code departs from the claim): for a window of one sample and one
score the first read, `correlation[N]`, is index 1 of an array of length 1,
and the inertial index for `max_idx = 1` is `|1 - 1 + 1| = 1` in a buffer of
one sample; for a window of two samples and three scores the loop reads
`correlation[N + 1]`, index 3 of an array of length 3. -/
theorem getTimeShift_reads_out_of_range :
    ([5] : List ℚ)[1]? = none ∧
    maxCorrelationIndex [5] 1 = .error .outOfRange ∧
    fullAligner.imu_buffer_.get? ((1 : Int) - 1 + 1).natAbs = none ∧
    timeShiftOfIndex rationalEnv fullAligner.vision_buffer_ fullAligner.imu_buffer_ 1 1 =
      .error .outOfRange ∧
    ([1, 2, 3] : List ℚ)[2 + 1]? = none ∧
    maxCorrelationIndex [1, 2, 3] 2 = .error .outOfRange := by
  refine ⟨rfl, maxCorrelationIndex_outOfRange _ 1 (by decide) rfl, rfl, ?_, rfl,
    maxCorrelationIndex_outOfRange _ 2 (by decide) rfl⟩
  decide!

/-! ## Exact arithmetic -/

/-- The rational library instance converts times exactly. -/
theorem rationalEnv_exact : ExactTime rationalEnv where
  nsec_mono := by
    intro s t h
    show (s : ℚ) / 1000000000 ≤ (t : ℚ) / 1000000000
    have : (s : ℚ) ≤ t := by exact_mod_cast h
    exact div_le_div_of_nonneg_right this (by norm_num)
  nsec_zero := by
    show ((0 : Timestamp) : ℚ) / 1000000000 = 0
    simp
  sec_mono := by
    intro x y h
    show SecToNsec x ≤ SecToNsec y
    unfold SecToNsec
    have hs : x * 1000000000 ≤ y * 1000000000 :=
      mul_le_mul_of_nonneg_right h (by norm_num)
    by_cases hx : 0 ≤ x
    · have hy : 0 ≤ y := le_trans hx h
      simp only [hx, hy, if_true]
      exact Int.floor_le_floor hs
    · by_cases hy : 0 ≤ y
      · simp only [hx, hy, if_true, if_false]
        have h1 : ⌈x * 1000000000⌉ ≤ 0 := by
          rw [Int.ceil_le]
          have : x * 1000000000 ≤ 0 :=
            mul_nonpos_of_nonpos_of_nonneg (le_of_lt (not_le.mp hx)) (by norm_num)
          exact_mod_cast this
        have h2 : (0 : ℤ) ≤ ⌊y * 1000000000⌋ := by
          rw [Int.le_floor]
          have : 0 ≤ y * 1000000000 := mul_nonneg hy (by norm_num)
          exact_mod_cast this
        exact le_trans h1 h2
      · simp only [hx, hy, if_false]
        exact Int.ceil_le_ceil hs
  round_trip := by
    intro t
    show SecToNsec ((t : ℚ) / 1000000000) = t
    unfold SecToNsec
    have h : (t : ℚ) / 1000000000 * 1000000000 = (t : ℚ) := by
      field_simp
    rw [h]
    split
    · exact Int.floor_intCast t
    · exact Int.ceil_intCast t

/-- C20: under exact arithmetic, an interpolation with `N > 1` that returns
has pushed a last vision sample with timestamp `t_end` and value `angle`; and
on a cold start (the inertial buffer holds exactly `N` samples, the vision
buffer is empty) the first vision sample pushed has timestamp `t_start` and
value 0. -/
theorem interp_end_points (env : Env) (a a2 : Aligner)
    (ts : Timestamp × Timestamp) (T : Pose3) (N : Nat)
    (hexact : ExactTime env) (hN : 1 < N)
    (hret : interpNewImageMeasurements env a ts T N = .ok a2) :
    ∃ samples : List Measurement,
      a2.vision_buffer_ = a.vision_buffer_.pushAll samples ∧
      samples.length = N ∧
      samples.getLast? = some ⟨ts.2, T.rotationLogNorm⟩ ∧
      (a.imu_buffer_.size = N → a.vision_buffer_.empty = true →
        samples.head? = some ⟨ts.1, 0⟩) := by
  obtain ⟨hle, ref, last, href, hlast, hpos, _, ha2⟩ :=
    interp_ok_interpolated env a a2 ts T N (by omega) hret
  have hlen : (a.imu_buffer_.items.drop (a.imu_buffer_.size - N)).length = N := by
    unfold RingBuffer.size at hle ⊢
    rw [List.length_drop]
    omega
  have hzero : env.SecToNsec 0 = 0 := by
    have := hexact.round_trip 0
    rwa [hexact.nsec_zero] at this
  refine ⟨_, by rw [ha2], ?_, ?_, ?_⟩
  · simp only [specInterpolatedSamples, List.length_map, hlen]
  · have hl : (a.imu_buffer_.items.drop (a.imu_buffer_.size - N)).getLast? = some last := by
      rw [List.getLast?_drop]
      unfold RingBuffer.size
      unfold RingBuffer.size at hle
      have : ¬ a.imu_buffer_.items.length ≤ a.imu_buffer_.items.length - N := by omega
      simp only [this, if_false]
      exact hlast
    simp only [specInterpolatedSamples, List.getLast?_map, hl, Option.map_some',
      Option.some.injEq, Measurement.mk.injEq]
    have hne : env.NsecToSec (last.timestamp - ref.timestamp) ≠ 0 := ne_of_gt hpos
    rw [div_self hne, one_mul, one_mul, hexact.round_trip]
    constructor
    · show (ts.1 : Int) + (ts.2 - ts.1) = ts.2
      ring
    · ring
  · intro hsize hempty
    have hback : a.vision_buffer_.back? = none := by
      unfold RingBuffer.empty at hempty
      unfold RingBuffer.back?
      rw [List.isEmpty_iff] at hempty
      rw [hempty]
      rfl
    have href0 : a.imu_buffer_.items[0]? = some ref := by
      simpa only [hsize, if_true, RingBuffer.get?] using href
    simp only [specInterpolatedSamples, List.head?_map, List.head?_drop, hsize,
      Nat.sub_self, href0, Option.map_some', Option.some.injEq, Measurement.mk.injEq,
      hback, Option.map_none', Option.getD_none, sub_self, hexact.nsec_zero, zero_div,
      zero_mul, hzero, add_zero, and_self]

/-- Witness of C20: the cold start of `coldStartAligner`, whose two vision
samples are `(0, 0)` and `(10 ms, 1/10)`. -/
theorem interp_end_points_witness :
    ExactTime rationalEnv ∧ 1 < 2 ∧
    interpNewImageMeasurements rationalEnv coldStartAligner (0, 10000000) ⟨1 / 10⟩ 2 =
      .ok coldStartInterpolated ∧
    ∃ samples : List Measurement,
      coldStartInterpolated.vision_buffer_ =
        coldStartAligner.vision_buffer_.pushAll samples ∧
      samples.length = 2 ∧
      samples.getLast? = some ⟨10000000, 1 / 10⟩ ∧
      (coldStartAligner.imu_buffer_.size = 2 → coldStartAligner.vision_buffer_.empty = true →
        samples.head? = some ⟨0, 0⟩) := by
  have hret : interpNewImageMeasurements rationalEnv coldStartAligner (0, 10000000)
      ⟨1 / 10⟩ 2 = .ok coldStartInterpolated := by decide!
  exact ⟨rationalEnv_exact, by decide, hret,
    interp_end_points rationalEnv coldStartAligner coldStartInterpolated (0, 10000000)
      ⟨1 / 10⟩ 2 rationalEnv_exact (by decide) hret⟩

/-! ## Interpolated timestamps -/

theorem interp_ok_single (env : Env) (a a2 : Aligner)
    (ts : Timestamp × Timestamp) (T : Pose3)
    (hret : interpNewImageMeasurements env a ts T 1 = .ok a2) :
    ∃ last, a.imu_buffer_.back? = some last ∧
      a2 = { a with vision_buffer_ := a.vision_buffer_.pushAll [⟨last.timestamp, T.rotationLogNorm⟩] } := by
  unfold interpNewImageMeasurements at hret
  simp only at hret
  by_cases hle : 1 ≤ a.imu_buffer_.size
  · simp only [hle, not_true_eq_false, if_false, if_true] at hret
    cases hlast : a.imu_buffer_.back? with
    | none =>
      simp only [hlast] at hret
      exact absurd hret (by simp)
    | some last =>
      simp only [hlast, Except.ok.injEq] at hret
      exact ⟨last, rfl, hret.symm⟩
  · simp only [hle, not_false_eq_true, if_true] at hret
    exact absurd hret (by simp)

/-- In a list whose timestamps are non-decreasing every timestamp is at most
the last one. -/
theorem le_last_of_pairwise (l : List Measurement) (last : Measurement)
    (hp : l.Pairwise fun x y => x.timestamp ≤ y.timestamp)
    (hl : l.getLast? = some last) :
    ∀ m ∈ l, m.timestamp ≤ last.timestamp := by
  obtain ⟨ys, rfl⟩ := List.getLast?_eq_some_iff.mp hl
  intro m hm
  rw [List.pairwise_append] at hp
  rcases List.mem_append.mp hm with h | h
  · exact hp.2.2 m h last (List.mem_singleton_self _)
  · rw [List.mem_singleton.mp h]

/-- C12 (amended): under exact arithmetic, for a frame interval with `t_start
≤ t_end` and `N ≥ 1`, an interpolation that returns has pushed `N` vision
samples whose timestamps are non-decreasing in push order and lie in
`[t_start, t_end]`, provided the `N` newest inertial timestamps are
non-decreasing and, when `N == 1`, the most recent inertial timestamp (which
is then the vision timestamp) lies in `[t_start, t_end]`. -/
theorem interp_timestamps_ordered (env : Env) (a a2 : Aligner)
    (ts : Timestamp × Timestamp) (T : Pose3) (N : Nat)
    (hexact : ExactTime env) (hN : 1 ≤ N) (hts : ts.1 ≤ ts.2)
    (hmono : (a.imu_buffer_.items.drop (a.imu_buffer_.size - N)).Pairwise
      fun x y => x.timestamp ≤ y.timestamp)
    (hone : N = 1 → ∀ last, a.imu_buffer_.back? = some last →
      ts.1 ≤ last.timestamp ∧ last.timestamp ≤ ts.2)
    (hret : interpNewImageMeasurements env a ts T N = .ok a2) :
    ∃ samples : List Measurement,
      a2.vision_buffer_ = a.vision_buffer_.pushAll samples ∧
      samples.length = N ∧
      (samples.Pairwise fun x y => x.timestamp ≤ y.timestamp) ∧
      ∀ s ∈ samples, ts.1 ≤ s.timestamp ∧ s.timestamp ≤ ts.2 := by
  by_cases h1 : N = 1
  · subst h1
    obtain ⟨last, hlast, ha2⟩ := interp_ok_single env a a2 ts T hret
    refine ⟨[⟨last.timestamp, T.rotationLogNorm⟩], by rw [ha2], rfl,
      List.pairwise_singleton _ _, ?_⟩
    intro s hs
    rw [List.mem_singleton.mp hs]
    exact hone rfl last hlast
  · obtain ⟨hle, ref, last, href, hlast, hpos, hge, ha2⟩ :=
      interp_ok_interpolated env a a2 ts T N h1 hret
    have hlen : (a.imu_buffer_.items.drop (a.imu_buffer_.size - N)).length = N := by
      unfold RingBuffer.size at hle ⊢
      rw [List.length_drop]
      omega
    have hl : (a.imu_buffer_.items.drop (a.imu_buffer_.size - N)).getLast? = some last := by
      rw [List.getLast?_drop]
      unfold RingBuffer.size
      unfold RingBuffer.size at hle
      have : ¬ a.imu_buffer_.items.length ≤ a.imu_buffer_.items.length - N := by omega
      simp only [this, if_false]
      exact hlast
    have hzero : env.SecToNsec 0 = 0 := by
      have := hexact.round_trip 0
      rwa [hexact.nsec_zero] at this
    have hfd : 0 ≤ env.NsecToSec (ts.2 - ts.1) := by
      have := hexact.nsec_mono 0 (ts.2 - ts.1) (by linarith)
      rwa [hexact.nsec_zero] at this
    have hupper := le_last_of_pairwise _ last hmono hl
    refine ⟨_, by rw [ha2], ?_, ?_, ?_⟩
    · simp only [specInterpolatedSamples, List.length_map, hlen]
    · unfold specInterpolatedSamples
      rw [List.pairwise_map]
      refine List.Pairwise.imp ?_ hmono
      intro x y hxy
      simp only
      have hr : env.NsecToSec (x.timestamp - ref.timestamp) /
            env.NsecToSec (last.timestamp - ref.timestamp) ≤
          env.NsecToSec (y.timestamp - ref.timestamp) /
            env.NsecToSec (last.timestamp - ref.timestamp) :=
        div_le_div_of_nonneg_right (hexact.nsec_mono _ _ (by linarith)) (le_of_lt hpos)
      have := hexact.sec_mono _ _ (mul_le_mul_of_nonneg_right hr hfd)
      linarith
    · intro s hs
      unfold specInterpolatedSamples at hs
      obtain ⟨m, hm, rfl⟩ := List.mem_map.mp hs
      simp only
      have h0 := hge m hm
      have h1' : env.NsecToSec (m.timestamp - ref.timestamp) /
          env.NsecToSec (last.timestamp - ref.timestamp) ≤ 1 := by
        rw [div_le_one hpos]
        exact hexact.nsec_mono _ _ (by have := hupper m hm; linarith)
      have hlo := hexact.sec_mono _ _ (mul_nonneg h0 hfd)
      have hhi := hexact.sec_mono _ _ (mul_le_of_le_one_left hfd h1')
      rw [hzero] at hlo
      rw [hexact.round_trip] at hhi
      constructor <;> linarith

/-- Witness of C12 (amended): the cold start of `coldStartAligner`, whose two
inertial timestamps 0 and 5 ms are in order; the vision timestamps are 0 and
10 ms. -/
theorem interp_timestamps_ordered_witness :
    ExactTime rationalEnv ∧ 1 ≤ 2 ∧ (0 : Timestamp) ≤ 10000000 ∧
    ((coldStartAligner.imu_buffer_.items.drop
      (coldStartAligner.imu_buffer_.size - 2)).Pairwise
        fun x y => x.timestamp ≤ y.timestamp) ∧
    interpNewImageMeasurements rationalEnv coldStartAligner (0, 10000000) ⟨1 / 10⟩ 2 =
      .ok coldStartInterpolated ∧
    ∃ samples : List Measurement,
      coldStartInterpolated.vision_buffer_ =
        coldStartAligner.vision_buffer_.pushAll samples ∧
      samples.length = 2 ∧
      (samples.Pairwise fun x y => x.timestamp ≤ y.timestamp) ∧
      ∀ s ∈ samples, (0 : Timestamp) ≤ s.timestamp ∧ s.timestamp ≤ 10000000 := by
  have hmono : (coldStartAligner.imu_buffer_.items.drop
      (coldStartAligner.imu_buffer_.size - 2)).Pairwise
        fun x y => x.timestamp ≤ y.timestamp := by
    simp [coldStartAligner, RingBuffer.size]
  have hret : interpNewImageMeasurements rationalEnv coldStartAligner (0, 10000000)
      ⟨1 / 10⟩ 2 = .ok coldStartInterpolated := by decide!
  exact ⟨rationalEnv_exact, by decide, by decide, hmono, hret,
    interp_timestamps_ordered rationalEnv coldStartAligner coldStartInterpolated
      (0, 10000000) ⟨1 / 10⟩ 2 rationalEnv_exact (by decide) (by decide) hmono
      (fun h => absurd h (by decide)) hret⟩

/-- Counterexample to C12 as stated, frame interval (0, 10 ms).  (1) `N == 1`:
the single vision sample takes the timestamp of the most recent inertial
sample, here 100 ms, outside the interval.  (2) `N == 3` with inertial
timestamps 0, 10 ms, 5 ms: every ratio is non-negative, the call returns, and
the vision timestamps are 0, 20 ms, 10 ms: the second is after `t_end` and
after the third. -/
theorem interp_timestamps_counterexample :
    (interpNewImageMeasurements rationalEnv lateImuAligner (0, 10000000) ⟨1 / 10⟩ 1 =
        .ok { lateImuAligner with vision_buffer_ := ⟨5, [⟨100000000, 1 / 10⟩], 1⟩ } ∧
      ¬ ((100000000 : Timestamp) ≤ 10000000)) ∧
    (interpNewImageMeasurements rationalEnv unorderedAligner (0, 10000000) ⟨1 / 10⟩ 3 =
        .ok { unorderedAligner with vision_buffer_ := ⟨5, [⟨0, 0⟩, ⟨20000000, 1 / 5⟩, ⟨10000000, 1 / 10⟩], 3⟩ } ∧
      ¬ ((20000000 : Timestamp) ≤ 10000000)) := by
  refine ⟨⟨?_, by decide⟩, ?_, by decide⟩ <;> decide!

/-! ## The window a buffer holds -/

theorem push_items_length_le (b : RingBuffer) (m : Measurement)
    (h : b.items.length ≤ b.capacity) : (b.push m).items.length ≤ (b.push m).capacity := by
  simp only [RingBuffer.push]
  split
  · simp only [List.length_append, List.length_singleton]; omega
  · simp only [List.length_drop, List.length_append, List.length_singleton]; omega

/-- After a run of pushes a buffer holds the newest `capacity` of the samples
it held or received, oldest first. -/
theorem pushAll_items (hist : List Measurement) :
    ∀ b : RingBuffer, b.items.length ≤ b.capacity →
      (b.pushAll hist).items =
        (b.items ++ hist).drop ((b.items ++ hist).length - b.capacity) := by
  induction hist with
  | nil =>
    intro b h
    simp only [pushAll_nil, List.append_nil]
    rw [Nat.sub_eq_zero_of_le h, List.drop_zero]
  | cons x xs ih =>
    intro b h
    rw [pushAll_cons, ih _ (push_items_length_le b x h)]
    by_cases hlt : b.items.length < b.capacity
    · simp only [RingBuffer.push, hlt, if_true, List.append_assoc, List.singleton_append]
    · have heq : b.items.length = b.capacity := by omega
      simp only [RingBuffer.push, hlt, if_false, List.append_assoc, List.singleton_append,
        List.drop_one, List.length_append, List.length_cons, List.length_tail]
      cases hitems : b.items with
      | nil =>
        rw [hitems] at heq
        simp only [List.length_nil] at heq
        simp only [← heq, List.nil_append, List.tail_cons, List.length_nil, Nat.zero_add,
          Nat.sub_zero, List.drop_length]
        simp
      | cons i0 it =>
        rw [hitems] at heq
        simp only [List.length_cons] at heq
        simp only [List.cons_append, List.tail_cons, List.length_cons, List.length_append]
        have e1 : it.length + 1 + (([] : List Measurement).length + 1) - 1 + xs.length
            - b.capacity = xs.length := by
          rw [List.length_nil]; omega
        have e2 : it.length + 1 + (xs.length + 1) - b.capacity = xs.length + 1 := by omega
        rw [e1, e2, List.drop_succ_cons, List.append_assoc, List.singleton_append]

/-- The window of a buffer that started empty with capacity `M` and received
the samples `hist`: at most `M` samples; exactly `M`, and full, once `M`
samples have been pushed; always the newest `M` pushed, oldest first, so that
after `M + 1` pushes the first sample pushed is gone and the other `M`
remain. -/
theorem pushAll_new_window (M : Nat) (hist : List Measurement) :
    ((RingBuffer.new M).pushAll hist).capacity = M ∧
    ((RingBuffer.new M).pushAll hist).pushes = hist.length ∧
    ((RingBuffer.new M).pushAll hist).size = min hist.length M ∧
    ((RingBuffer.new M).pushAll hist).size ≤ M ∧
    (M ≤ hist.length → ((RingBuffer.new M).pushAll hist).size = M ∧
      ((RingBuffer.new M).pushAll hist).full = true) ∧
    ((RingBuffer.new M).pushAll hist).items = hist.drop (hist.length - M) ∧
    (hist.length = M + 1 → ((RingBuffer.new M).pushAll hist).items = hist.tail) := by
  have hitems : ((RingBuffer.new M).pushAll hist).items = hist.drop (hist.length - M) := by
    have := pushAll_items hist (RingBuffer.new M) (by simp [RingBuffer.new])
    simpa [RingBuffer.new] using this
  have hcap : ((RingBuffer.new M).pushAll hist).capacity = M := by
    rw [pushAll_capacity]; rfl
  have hsize : ((RingBuffer.new M).pushAll hist).size = min hist.length M := by
    unfold RingBuffer.size
    rw [hitems, List.length_drop]
    omega
  refine ⟨hcap, ?_, hsize, ?_, ?_, hitems, ?_⟩
  · rw [pushAll_pushes]; simp [RingBuffer.new]
  · rw [hsize]; omega
  · intro hle
    have hs : ((RingBuffer.new M).pushAll hist).size = M := by rw [hsize]; omega
    refine ⟨hs, ?_⟩
    simp only [RingBuffer.full, hs, hcap, decide_True]
  · intro hlen
    rw [hitems, hlen]
    simp

/-! ## Calls as runs of pushes -/

/-- `addNewImuData` changes the aligner by a run of pushes on the inertial
buffer, as many as the count it returns. -/
theorem addNewImuData_pushAll (env : Env) (a : Aligner) (t : Timestamp)
    (imu : List ImuColumn) :
    ∃ xs : List Measurement,
      xs.length = (addNewImuData env a t imu).1 ∧
      (addNewImuData env a t imu).2 = { a with imu_buffer_ := a.imu_buffer_.pushAll xs } ∧
      (a.do_imu_rate_estimation_ = false → (addNewImuData env a t imu).1 ≤ 1) := by
  cases imu with
  | nil =>
    refine ⟨[], rfl, ?_, fun _ => Nat.zero_le _⟩
    cases a; rfl
  | cons c0 rest =>
    by_cases hmode : a.do_imu_rate_estimation_ = true
    · simp only [addNewImuData, hmode, not_true_eq_false, if_false, foldl_push_eq_pushAll]
      refine ⟨_, ?_, rfl, fun h => absurd h (by simp)⟩
      simp only [List.length_map, List.length_drop, List.length_cons]
    · have hmf : a.do_imu_rate_estimation_ = false := by simpa using hmode
      simp only [addNewImuData, hmf, Bool.false_eq_true, not_false_eq_true, if_true]
      exact ⟨[Measurement.mk t (env.integratedAngle
        ((c0 :: rest).map fun (c : ImuColumn) => c.gyr) a.imu_period_s_)], rfl, rfl,
        fun _ => le_refl _⟩

/-- An interpolation that returns has changed the aligner by a run of `N`
pushes on the vision buffer. -/
theorem interp_ok_pushAll (env : Env) (a a2 : Aligner)
    (ts : Timestamp × Timestamp) (T : Pose3) (N : Nat)
    (hret : interpNewImageMeasurements env a ts T N = .ok a2) :
    ∃ ys : List Measurement,
      ys.length = N ∧ a2 = { a with vision_buffer_ := a.vision_buffer_.pushAll ys } := by
  by_cases h1 : N = 1
  · subst h1
    obtain ⟨last, _, ha2⟩ := interp_ok_single env a a2 ts T hret
    exact ⟨[Measurement.mk last.timestamp T.rotationLogNorm], rfl, ha2⟩
  · obtain ⟨hle, ref, last, _, _, _, _, ha2⟩ :=
      interp_ok_interpolated env a a2 ts T N h1 hret
    refine ⟨_, ?_, ha2⟩
    unfold RingBuffer.size at hle
    simp only [specInterpolatedSamples, List.length_map, List.length_drop, RingBuffer.size]
    omega

/-- A call that returns has changed the aligner by a run of pushes on each
buffer, as many on the vision buffer as on the inertial buffer: the count
returned by `addNewImuData`.  The result of the call plays no part. -/
theorem attemptEstimation_ok_pushAll (env : Env) (a : Aligner)
    (ts : Timestamp × Timestamp) (T : Pose3) (imu : List ImuColumn)
    (r : Result) (a2 : Aligner)
    (hret : attemptEstimation env a ts T imu = .ok (r, a2)) :
    ∃ xs ys : List Measurement,
      xs.length = (addNewImuData env a ts.2 imu).1 ∧
      ys.length = (addNewImuData env a ts.2 imu).1 ∧
      (addNewImuData env a ts.2 imu).2.imu_buffer_ = a.imu_buffer_.pushAll xs ∧
      a2 = { a with imu_buffer_ := a.imu_buffer_.pushAll xs,
                    vision_buffer_ := a.vision_buffer_.pushAll ys } := by
  obtain ⟨xs, hxs, hadd2, hlow⟩ := addNewImuData_pushAll env a ts.2 imu
  have himu : (addNewImuData env a ts.2 imu).2.imu_buffer_ = a.imu_buffer_.pushAll xs := by
    rw [hadd2]
  by_cases hadd : (addNewImuData env a ts.2 imu).1 = 0
  · refine ⟨xs, [], hxs, by rw [hadd]; rfl, himu, ?_⟩
    unfold attemptEstimation at hret
    simp only [hadd, if_true, Except.ok.injEq, Prod.mk.injEq] at hret
    rw [← hret.2, hadd2]
    rfl
  · have hst := attemptEstimation_ok_state env a ts T imu r a2 hadd hret
    unfold pushImageMeasurements at hst
    by_cases hmode : a.do_imu_rate_estimation_ = true
    · have hm2 : (addNewImuData env a ts.2 imu).2.do_imu_rate_estimation_ = true := by
        rw [hadd2]; exact hmode
      simp only [hm2, if_true] at hst
      obtain ⟨ys, hys, ha2⟩ := interp_ok_pushAll _ _ _ _ _ _ hst
      refine ⟨xs, ys, hxs, hys, himu, ?_⟩
      rw [ha2, hadd2]
    · have hmf : a.do_imu_rate_estimation_ = false := by simpa using hmode
      have hm2 : (addNewImuData env a ts.2 imu).2.do_imu_rate_estimation_ = false := by
        rw [hadd2]; exact hmf
      simp only [hm2, Bool.false_eq_true, if_false, Except.ok.injEq] at hst
      have hone : (addNewImuData env a ts.2 imu).1 = 1 := by
        have := hlow hmf
        omega
      refine ⟨xs, [Measurement.mk ts.2 T.rotationLogNorm], hxs, by rw [hone]; rfl, himu, ?_⟩
      rw [← hst, hadd2]
      simp [hmf, RingBuffer.pushAll]

/-- After a sequence of calls that return, each buffer of an aligner that was
freshly constructed is the empty buffer with the samples pushed so far, and
both buffers have received the same number of samples. -/
theorem runCalls_history (env : Env) (M : Nat) (calls : List Call) :
    ∀ (a a2 : Aligner),
      (∃ hi hv : List Measurement, hi.length = hv.length ∧
        a.imu_buffer_ = (RingBuffer.new M).pushAll hi ∧
        a.vision_buffer_ = (RingBuffer.new M).pushAll hv) →
      runCalls env a calls = some a2 →
      ∃ hi hv : List Measurement, hi.length = hv.length ∧
        a2.imu_buffer_ = (RingBuffer.new M).pushAll hi ∧
        a2.vision_buffer_ = (RingBuffer.new M).pushAll hv := by
  induction calls with
  | nil =>
    intro a a2 h hrun
    simp only [runCalls, Option.some.injEq] at hrun
    subst hrun
    exact h
  | cons c rest ih =>
    intro a a2 h hrun
    simp only [runCalls] at hrun
    split at hrun
    · rename_i r a1 hcall
      obtain ⟨hi, hv, hlen, himu, hvis⟩ := h
      obtain ⟨xs, ys, hxs, hys, _, ha1⟩ :=
        attemptEstimation_ok_pushAll env a _ _ _ r a1 hcall
      refine ih a1 a2 ⟨hi ++ xs, hv ++ ys, ?_, ?_, ?_⟩ hrun
      · simp only [List.length_append, hlen, hxs, hys]
      · rw [ha1, pushAll_append, ← himu]
      · rw [ha1, pushAll_append, ← hvis]
    · exact absurd hrun (by simp)

theorem runCalls_new_history (env : Env) (params : ImuParams) (calls : List Call)
    (a : Aligner) (hrun : runCalls env (Aligner.new params) calls = some a) :
    ∃ hi hv : List Measurement, hi.length = hv.length ∧
      a.imu_buffer_ = (RingBuffer.new params.time_alignment_window_size_).pushAll hi ∧
      a.vision_buffer_ = (RingBuffer.new params.time_alignment_window_size_).pushAll hv :=
  runCalls_history env _ calls (Aligner.new params) a ⟨[], [], rfl, rfl, rfl⟩ hrun

/-- C14: for a window size `M > 0`, after any sequence of calls that return
on a freshly constructed aligner, each buffer is the empty buffer of capacity
`M` with the samples pushed so far; it holds at most `M` samples; once `M`
samples have been pushed it holds exactly `M` and reports full; and when `M +
1` samples have been pushed it holds all of them but the first, oldest
first. -/
theorem buffers_hold_window (env : Env) (params : ImuParams) (calls : List Call)
    (a : Aligner) (hM : 0 < params.time_alignment_window_size_)
    (hrun : runCalls env (Aligner.new params) calls = some a) :
    ∃ imuPushed visionPushed : List Measurement,
      a.imu_buffer_ =
        (RingBuffer.new params.time_alignment_window_size_).pushAll imuPushed ∧
      a.vision_buffer_ =
        (RingBuffer.new params.time_alignment_window_size_).pushAll visionPushed ∧
      (a.imu_buffer_.pushes = imuPushed.length ∧
        a.imu_buffer_.size ≤ params.time_alignment_window_size_ ∧
        (params.time_alignment_window_size_ ≤ imuPushed.length →
          a.imu_buffer_.size = params.time_alignment_window_size_ ∧
          a.imu_buffer_.full = true) ∧
        (imuPushed.length = params.time_alignment_window_size_ + 1 →
          a.imu_buffer_.items = imuPushed.tail)) ∧
      (a.vision_buffer_.pushes = visionPushed.length ∧
        a.vision_buffer_.size ≤ params.time_alignment_window_size_ ∧
        (params.time_alignment_window_size_ ≤ visionPushed.length →
          a.vision_buffer_.size = params.time_alignment_window_size_ ∧
          a.vision_buffer_.full = true) ∧
        (visionPushed.length = params.time_alignment_window_size_ + 1 →
          a.vision_buffer_.items = visionPushed.tail)) := by
  have _ := hM
  obtain ⟨hi, hv, _, himu, hvis⟩ := runCalls_new_history env params calls a hrun
  have wi := pushAll_new_window params.time_alignment_window_size_ hi
  have wv := pushAll_new_window params.time_alignment_window_size_ hv
  rw [← himu] at wi
  rw [← hvis] at wv
  exact ⟨hi, hv, himu, hvis, ⟨wi.2.1, wi.2.2.2.1, wi.2.2.2.2.1, wi.2.2.2.2.2.2⟩,
    ⟨wv.2.1, wv.2.2.2.1, wv.2.2.2.2.1, wv.2.2.2.2.2.2⟩⟩

/-- C18: after any sequence of calls that return on a freshly constructed
aligner, in either mode, the inertial buffer and the vision buffer hold the
same number of samples, and the inertial buffer is full whenever the vision
buffer is. -/
theorem buffers_in_lockstep (env : Env) (params : ImuParams) (calls : List Call)
    (a : Aligner) (hrun : runCalls env (Aligner.new params) calls = some a) :
    a.imu_buffer_.size = a.vision_buffer_.size ∧
    (a.vision_buffer_.full = true → a.imu_buffer_.full = true) := by
  obtain ⟨hi, hv, hlen, himu, hvis⟩ := runCalls_new_history env params calls a hrun
  have wi := pushAll_new_window params.time_alignment_window_size_ hi
  have wv := pushAll_new_window params.time_alignment_window_size_ hv
  rw [← himu] at wi
  rw [← hvis] at wv
  have hsize : a.imu_buffer_.size = a.vision_buffer_.size := by
    rw [wi.2.2.1, wv.2.2.1, hlen]
  refine ⟨hsize, ?_⟩
  intro hfull
  simp only [RingBuffer.full, decide_eq_true_eq] at hfull ⊢
  rw [hsize, hfull, wv.1, wi.1]

theorem runCalls_twoLowRateCalls :
    runCalls rationalEnv (Aligner.new lowRateParams) twoLowRateCalls =
      some afterTwoLowRateCalls := by
  decide!

theorem runCalls_twoCalls :
    runCalls rationalEnv (Aligner.new highRateParams) twoCalls = some afterTwoCalls := by
  decide!

/-- Witness of C14: a window of one sample and two low-rate calls, that is
`M + 1` pushes on each buffer. -/
theorem buffers_hold_window_witness :
    0 < lowRateParams.time_alignment_window_size_ ∧
    runCalls rationalEnv (Aligner.new lowRateParams) twoLowRateCalls =
      some afterTwoLowRateCalls ∧
    ∃ imuPushed visionPushed : List Measurement,
      afterTwoLowRateCalls.imu_buffer_ =
        (RingBuffer.new lowRateParams.time_alignment_window_size_).pushAll imuPushed ∧
      afterTwoLowRateCalls.vision_buffer_ =
        (RingBuffer.new lowRateParams.time_alignment_window_size_).pushAll visionPushed ∧
      (afterTwoLowRateCalls.imu_buffer_.pushes = imuPushed.length ∧
        afterTwoLowRateCalls.imu_buffer_.size ≤ lowRateParams.time_alignment_window_size_ ∧
        (lowRateParams.time_alignment_window_size_ ≤ imuPushed.length →
          afterTwoLowRateCalls.imu_buffer_.size =
            lowRateParams.time_alignment_window_size_ ∧
          afterTwoLowRateCalls.imu_buffer_.full = true) ∧
        (imuPushed.length = lowRateParams.time_alignment_window_size_ + 1 →
          afterTwoLowRateCalls.imu_buffer_.items = imuPushed.tail)) ∧
      (afterTwoLowRateCalls.vision_buffer_.pushes = visionPushed.length ∧
        afterTwoLowRateCalls.vision_buffer_.size ≤
          lowRateParams.time_alignment_window_size_ ∧
        (lowRateParams.time_alignment_window_size_ ≤ visionPushed.length →
          afterTwoLowRateCalls.vision_buffer_.size =
            lowRateParams.time_alignment_window_size_ ∧
          afterTwoLowRateCalls.vision_buffer_.full = true) ∧
        (visionPushed.length = lowRateParams.time_alignment_window_size_ + 1 →
          afterTwoLowRateCalls.vision_buffer_.items = visionPushed.tail)) :=
  ⟨by decide, runCalls_twoLowRateCalls,
    buffers_hold_window rationalEnv lowRateParams twoLowRateCalls afterTwoLowRateCalls
      (by decide) runCalls_twoLowRateCalls⟩

/-- Witness of C18: two high-rate calls, after which each buffer holds four
samples. -/
theorem buffers_in_lockstep_witness :
    runCalls rationalEnv (Aligner.new highRateParams) twoCalls = some afterTwoCalls ∧
    afterTwoCalls.imu_buffer_.size = afterTwoCalls.vision_buffer_.size ∧
    (afterTwoCalls.vision_buffer_.full = true → afterTwoCalls.imu_buffer_.full = true) :=
  ⟨runCalls_twoCalls,
    buffers_in_lockstep rationalEnv highRateParams twoCalls afterTwoCalls runCalls_twoCalls⟩

end CrossCorr
